import Mathlib

/-!
Assertion engine of the lazygit integration tests.

A shallow embedding of `pkg/integration/components/assert.go`: the string
matchers, the poll-with-retry loop `assertWithRetries`, and the assertions
built on it.

Go strings are Lean strings and `fmt.Sprintf` with `%s` / `%d` verbs is
concatenation.  The application under test, the clock and the filesystem are
an explicit world `σ`: `time.Sleep` is a transition of the world, and every
read of the gui driver is a function of the world at the moment of the read.
Each call produces the sequence of effects it performed (`Event`), so that the
number of probe evaluations, the time slept and the calls of the failure sink
can be read off a run.
-/

namespace Lazygit

/-! ## Strings -/

/-- Go's `strings.Contains(s, substr)` on character lists: a left-to-right
search for a position of `s` at which `substr` is a prefix. -/
def containsChars (substr : List Char) : List Char → Bool
  | [] => substr.isEmpty
  | c :: cs => substr.isPrefixOf (c :: cs) || containsChars substr cs

/-- Go's `strings.Contains(s, substr)`. -/
def stringsContains (s substr : String) : Bool :=
  containsChars substr.data s.data

/-- The text `part` occurs inside the text `whole`. -/
def Occurs (part whole : String) : Prop :=
  ∃ pre post : String, whole = pre ++ part ++ post

/-! ## Matchers -/

/-- Modelled from the spec: the `matcher` type (`NewMatcher`, `context`,
`test`), declared in a file of the package that is not among the sources.  A
matcher is a description and a predicate from a value to a pass flag and a
diagnostic. -/
structure matcher where
  name : String
  testFn : String → Bool × String

/-- Modelled from the spec: the constructor `NewMatcher(name, testFn)`. -/
def NewMatcher (name : String) (testFn : String → Bool × String) : matcher :=
  { name := name, testFn := testFn }

/-- Modelled from the spec: `matcher.test(value)` runs the predicate. -/
def matcher.test (m : matcher) (value : String) : Bool × String :=
  m.testFn value

/-- Modelled from the spec: `matcher.context(label)` is a new matcher whose
predicate defers to the original and puts `label` in front of the
diagnostic. -/
def matcher.context (m : matcher) (label : String) : matcher :=
  { name := m.name
    testFn := fun value => ((m.testFn value).1, label ++ " " ++ (m.testFn value).2) }

/-- The Go function `Contains`. -/
def Contains (target : String) : matcher :=
  NewMatcher ("contains '" ++ target ++ "'")
    (fun value =>
      (stringsContains value target,
        "Expected '" ++ target ++ "' to be found in '" ++ value ++ "'"))

/-- The Go function `NotContains`. -/
def NotContains (target : String) : matcher :=
  NewMatcher ("does not contain '" ++ target ++ "'")
    (fun value =>
      (!stringsContains value target,
        "Expected '" ++ target ++ "' to NOT be found in '" ++ value ++ "'"))

/-- Go's `regexp` library, taken as a parameter: compiling a pattern gives the
text of a parse error or the predicate of the strings the expression matches.
`regexp.MatchString(pattern, s)` compiles `pattern` and then matches `s`. -/
abbrev RegexpLib := String → Except String (String → Bool)

/-- Go's `regexp.MatchString(pattern, s)` over a regexp library. -/
def regexpMatchString (rx : RegexpLib) (pattern s : String) : Except String Bool :=
  match rx pattern with
  | .error err => .error err
  | .ok re => .ok (re s)

/-- The Go function `MatchesRegexp`. -/
def MatchesRegexp (rx : RegexpLib) (target : String) : matcher :=
  NewMatcher ("matches regular expression '" ++ target ++ "'")
    (fun value =>
      match regexpMatchString rx target value with
      | .error err =>
          (false, "Unexpected error parsing regular expression '" ++ target ++ "': " ++ err)
      | .ok matched =>
          (matched, "Expected '" ++ value ++ "' to match regular expression '" ++ target ++ "'"))

/-- The Go function `Equals`. -/
def Equals (target : String) : matcher :=
  NewMatcher ("equals '" ++ target ++ "'")
    (fun value =>
      (decide (target = value),
        "Expected '" ++ value ++ "' to equal '" ++ target ++ "'"))

/-! ## The world, effects and runs -/

/-- What the gui driver exposes of one view (`*gocui.View`). -/
structure GocuiView where
  Name : String
  Title : String
  Editable : Bool
  Buffer : String
  BufferLines : List String

/-- The error returned by `os.Stat`: `nil`, an error for which `os.IsNotExist`
holds, or any other error (permission denied, not a directory, ...). -/
inductive StatErr where
  | nil
  | notExist
  | other (text : String)
  deriving DecidableEq, Repr

/-- Go's `os.IsNotExist(err)`. -/
def IsNotExist : StatErr → Bool
  | .notExist => true
  | _ => false

/-- The environment of an `Assert` value over worlds `σ`: the clock
(`time.Sleep`, with the duration in milliseconds, gives the world after the
wait), the reads of the gui driver, and the filesystem query `os.Stat`. -/
structure Env (σ : Type) where
  Sleep : Nat → σ → σ
  View : σ → String → GocuiView
  CurrentView : σ → GocuiView
  Commits : σ → List String
  Stat : σ → String → StatErr

/-- What a probe does while it is evaluated. -/
inductive Access where
  /-- An indexed read `xs[i]` of a slice of length `len`. -/
  | index (len i : Nat)
  /-- An application `test(value)` of the matcher described by `name`. -/
  | apply (name value : String)
  deriving DecidableEq, Repr

/-- The effects a call performs, in order. -/
inductive Event where
  /-- A call `time.Sleep(ms * time.Millisecond)`. -/
  | sleep (ms : Nat)
  /-- Something the probe did during one evaluation. -/
  | access (a : Access)
  /-- The end of one evaluation of the probe `test()`, which returned
  `(ok, message)`. -/
  | eval (ok : Bool) (message : String)
  /-- A call `gui.Fail(message)` of the failure sink. -/
  | fail (message : String)
  deriving DecidableEq, Repr

/-- How a call ends: it returns to the scenario, the failure sink ends the
scenario, or an indexed read is out of range (a Go run-time panic). -/
inductive Outcome where
  | returned
  | failed (message : String)
  | panicked
  deriving DecidableEq, Repr

/-- A finished call: the world it ends in, its effects, and how it ended. -/
structure Run (σ : Type) where
  world : σ
  trace : List Event
  outcome : Outcome

/-- The events `pre` happened before the run `r`. -/
def Run.after {σ : Type} (pre : List Event) (r : Run σ) : Run σ :=
  { world := r.world, trace := pre ++ r.trace, outcome := r.outcome }

/-- Sequential composition of Go statements: the rest runs only when the
first statement returned. -/
def Run.andThen {σ : Type} (r : Run σ) (rest : σ → Run σ) : Run σ :=
  match r.outcome with
  | .returned => Run.after r.trace (rest r.world)
  | _ => r

/-- One evaluation of a probe `func() (bool, string)`: what it did and its
result, `none` when an indexed read was out of range. -/
structure ProbeOut where
  accesses : List Access
  result : Option (Bool × String)

/-- A probe that only computes on the world it is evaluated in. -/
def pureProbe {σ : Type} (f : σ → Bool × String) : σ → ProbeOut :=
  fun s => { accesses := [], result := some (f s) }

/-! ## Measures of a trace -/

/-- The probe results of a trace, in order. -/
def evals : List Event → List (Bool × String)
  | [] => []
  | .eval ok m :: es => (ok, m) :: evals es
  | _ :: es => evals es

/-- The durations of the `time.Sleep` calls of a trace, in order. -/
def sleeps : List Event → List Nat
  | [] => []
  | .sleep ms :: es => ms :: sleeps es
  | _ :: es => sleeps es

/-- The messages handed to the failure sink, in order. -/
def failures : List Event → List String
  | [] => []
  | .fail m :: es => m :: failures es
  | _ :: es => failures es

/-- The indexed reads and matcher applications of a trace, in order. -/
def accesses : List Event → List Access
  | [] => []
  | .access a :: es => a :: accesses es
  | _ :: es => accesses es

/-- Total time slept, in milliseconds. -/
def slept (tr : List Event) : Nat := (sleeps tr).sum

/-! ## The engine -/

/-- The retry schedule of `assertWithRetries`, in milliseconds. -/
def waitTimes : List Nat :=
  [0, 1, 1, 1, 1, 1, 5, 10, 20, 40, 100, 200, 500, 1000, 2000, 4000]

/-- Modelled from the spec: the failure sink `gui.Fail` of the gui driver, an
interface implemented outside the sources: it records the fatal failure with
its message and ends the scenario. `Assert.Fail` delegates to it. -/
def Fail {σ : Type} (message : String) (s : σ) : Run σ :=
  { world := s, trace := [.fail message], outcome := .failed message }

/-- The loop of `assertWithRetries` over the remaining schedule, with the
current value of the variable `message`. -/
def retryLoop {σ : Type} (env : Env σ) (test : σ → ProbeOut) :
    List Nat → String → σ → Run σ
  | [], message, s => Fail message s
  | waitTime :: rest, _, s =>
      let s1 := env.Sleep waitTime s
      let out := test s1
      match out.result with
      | none =>
          { world := s1
            trace := .sleep waitTime :: out.accesses.map Event.access
            outcome := .panicked }
      | some (true, message) =>
          { world := s1
            trace := .sleep waitTime :: (out.accesses.map Event.access ++ [.eval true message])
            outcome := .returned }
      | some (false, message) =>
          Run.after (.sleep waitTime :: (out.accesses.map Event.access ++ [.eval false message]))
            (retryLoop env test rest message s1)

/-- The Go method `assertWithRetries`. -/
def assertWithRetries {σ : Type} (env : Env σ) (test : σ → ProbeOut) (s : σ) : Run σ :=
  retryLoop env test waitTimes "" s

/-- The world in which the probe is evaluated after sleeping through the
schedule entries `ws`, one after the other. -/
def worldAfter {σ : Type} (env : Env σ) (ws : List Nat) (s : σ) : σ :=
  ws.foldl (fun w d => env.Sleep d w) s

/-- The probe that `matchString` hands to `assertWithRetries`; `getValue`
gives the reads it makes and the value, `none` when an indexed read is out of
range. -/
def matchStringTest {σ : Type} (m : matcher) (context : String)
    (getValue : σ → List Access × Option String) (w : σ) : ProbeOut :=
  match getValue w with
  | (reads, none) => { accesses := reads, result := none }
  | (reads, some value) =>
      { accesses := reads ++ [.apply m.name value]
        result := some ((m.context context).test value) }

/-- The Go method `matchString`. -/
def matchString {σ : Type} (env : Env σ) (m : matcher) (context : String)
    (getValue : σ → List Access × Option String) (s : σ) : Run σ :=
  assertWithRetries env (matchStringTest m context getValue) s

/-- The indexed read `self.gui.View(viewName).BufferLines()[i]`. -/
def bufferLineAt {σ : Type} (env : Env σ) (viewName : String) (i : Nat) (w : σ) :
    List Access × Option String :=
  let lines := (env.View w viewName).BufferLines
  ([.index lines.length i], lines.get? i)

/-- The loop `for i, matcher := range matchers` shared by `ViewLines` and
`ViewTopLines`, from index `i` on. -/
def linesLoop {σ : Type} (env : Env σ) (viewName : String) :
    List matcher → Nat → σ → Run σ
  | [], _, s => { world := s, trace := [], outcome := .returned }
  | m :: ms, i, s =>
      (matchString env m ("Unexpected content in view '" ++ viewName ++ "'.")
        (bufferLineAt env viewName i) s).andThen (linesLoop env viewName ms (i + 1))

/-- The probe of the line-count check of `ViewLines`. -/
def viewLinesCountTest {σ : Type} (env : Env σ) (viewName : String) (n : Nat) :
    σ → ProbeOut :=
  pureProbe (fun w =>
    let lines := (env.View w viewName).BufferLines
    (decide (lines.length = n),
      "unexpected number of lines in view. Expected " ++ toString n ++ ", got "
        ++ toString lines.length))

/-- The Go method `ViewLines`. -/
def ViewLines {σ : Type} (env : Env σ) (viewName : String) (matchers : List matcher)
    (s : σ) : Run σ :=
  (assertWithRetries env (viewLinesCountTest env viewName matchers.length) s).andThen
    (linesLoop env viewName matchers 0)

/-- The Go method `CurrentViewLines`. -/
def CurrentViewLines {σ : Type} (env : Env σ) (matchers : List matcher) (s : σ) : Run σ :=
  ViewLines env (env.CurrentView s).Name matchers s

/-- The probe of the line-count check of `ViewTopLines`. -/
def viewTopLinesCountTest {σ : Type} (env : Env σ) (viewName : String) (n : Nat) :
    σ → ProbeOut :=
  pureProbe (fun w =>
    let lines := (env.View w viewName).BufferLines
    (decide (lines.length ≥ n),
      "unexpected number of lines in view. Expected at least " ++ toString n ++ ", got "
        ++ toString lines.length))

/-- The Go method `ViewTopLines`. -/
def ViewTopLines {σ : Type} (env : Env σ) (viewName : String) (matchers : List matcher)
    (s : σ) : Run σ :=
  (assertWithRetries env (viewTopLinesCountTest env viewName matchers.length) s).andThen
    (linesLoop env viewName matchers 0)

/-- The probe of `HeadCommitMessage` that waits for a first commit. -/
def atLeastOneCommitTest {σ : Type} (env : Env σ) : σ → ProbeOut :=
  pureProbe (fun w =>
    (decide ((env.Commits w).length > 0), "Expected at least one commit to be present"))

/-- The indexed read `self.gui.Model().Commits[0].Name`. -/
def headCommitName {σ : Type} (env : Env σ) (w : σ) : List Access × Option String :=
  ([.index (env.Commits w).length 0], (env.Commits w).get? 0)

/-- The Go method `HeadCommitMessage`. -/
def HeadCommitMessage {σ : Type} (env : Env σ) (m : matcher) (s : σ) : Run σ :=
  (assertWithRetries env (atLeastOneCommitTest env) s).andThen
    (matchString env m "Unexpected commit message." (headCommitName env))

/-- The probe of `InPrompt` on the focused view. -/
def inPromptTest (currentView : GocuiView) : Bool × String :=
  (decide (currentView.Name = "confirmation") && currentView.Editable,
    "Expected prompt popup to be focused")

/-- The probe of `InConfirm` on the focused view. -/
def inConfirmTest (currentView : GocuiView) : Bool × String :=
  (decide (currentView.Name = "confirmation") && !currentView.Editable,
    "Expected confirmation popup to be focused")

/-- The probe of `InAlert` on the focused view. -/
def inAlertTest (currentView : GocuiView) : Bool × String :=
  (decide (currentView.Name = "confirmation") && !currentView.Editable,
    "Expected alert popup to be focused")

/-- The probe of `InCommitMessagePanel` on the focused view. -/
def inCommitMessagePanelTest (currentView : GocuiView) : Bool × String :=
  (decide (currentView.Name = "commitMessage"), "Expected commit message panel to be focused")

/-- The probe of `InMenu` on the focused view. -/
def inMenuTest (currentView : GocuiView) : Bool × String :=
  (decide (currentView.Name = "menu"), "Expected popup menu to be focused")

/-- The probe of `NotInPopup` on the focused view. -/
def notInPopupTest (currentView : GocuiView) : Bool × String :=
  (decide (currentView.Name ≠ "menu") && decide (currentView.Name ≠ "confirmation")
      && decide (currentView.Name ≠ "commitMessage"),
    "Expected popup not to be focused")

/-- An assertion of the Go type `Assert` whose probe reads the focused view:
`InPrompt`, `InConfirm`, `InAlert`, `InCommitMessagePanel`, `InMenu` and
`NotInPopup` are this call on their probes. -/
def assertOnCurrentView {σ : Type} (env : Env σ) (test : GocuiView → Bool × String)
    (s : σ) : Run σ :=
  assertWithRetries env (pureProbe (fun w => test (env.CurrentView w))) s

/-- The probe of `FileSystemPathPresent` on the error `os.Stat(path)` gave. -/
def fileSystemPathPresentTest (path : String) (err : StatErr) : Bool × String :=
  (decide (err = .nil), "Expected path '" ++ path ++ "' to exist, but it does not")

/-- The probe of `FileSystemPathNotPresent` on the error `os.Stat(path)` gave. -/
def fileSystemPathNotPresentTest (path : String) (err : StatErr) : Bool × String :=
  (IsNotExist err, "Expected path '" ++ path ++ "' to not exist, but it does")

/-- The Go method `FileSystemPathPresent`. -/
def FileSystemPathPresent {σ : Type} (env : Env σ) (path : String) (s : σ) : Run σ :=
  assertWithRetries env (pureProbe (fun w => fileSystemPathPresentTest path (env.Stat w path))) s

/-- The Go method `FileSystemPathNotPresent`. -/
def FileSystemPathNotPresent {σ : Type} (env : Env σ) (path : String) (s : σ) : Run σ :=
  assertWithRetries env
    (pureProbe (fun w => fileSystemPathNotPresentTest path (env.Stat w path))) s

/-! ## What a never-passing probe sees -/

/-- The worlds in which the probe is evaluated while the loop goes through the
schedule entries `ws` from the world `s`: one per entry, each after its sleep. -/
def evalWorlds {σ : Type} (env : Env σ) : List Nat → σ → List σ
  | [], _ => []
  | d :: ds, s => env.Sleep d s :: evalWorlds env ds (env.Sleep d s)

/-- The diagnostic the probe returns in the world `s` (empty when it panics). -/
def messageAt {σ : Type} (test : σ → ProbeOut) (s : σ) : String :=
  match (test s).result with
  | some (_, message) => message
  | none => ""

/-- The probe returns pass=false on every evaluation. -/
def NeverPasses {σ : Type} (test : σ → ProbeOut) : Prop :=
  ∀ s, ∃ message, (test s).result = some (false, message)

/-- The engine's own effects, leaving out what the probe did. -/
def engineEvents : List Event → List Event
  | [] => []
  | .access _ :: es => engineEvents es
  | e :: es => e :: engineEvents es

/-- The effects of a traversal in which every evaluation fails: before each
evaluation the sleep of its schedule entry. -/
def failedRounds : List Nat → List String → List Event
  | d :: ds, m :: ms => .sleep d :: .eval false m :: failedRounds ds ms
  | _, _ => []

/-- The value of `n` rounded to the nearest multiple of ten. -/
def roundToTen (n : Nat) : Nat := (n + 5) / 10 * 10

/-! ## Sample worlds and probes -/

/-- A world that is a clock in milliseconds: sleeping `d` takes exactly `d`.
Every view has the lines `["x", "y"]` before the instant `T` and
`["a-line", "b-line"]` from `T` on; there are no commits and no files. -/
def clockEnv (T : Nat) : Env Nat where
  Sleep d t := t + d
  View t viewName :=
    { Name := viewName, Title := "", Editable := false, Buffer := ""
      BufferLines := if t < T then ["x", "y"] else ["a-line", "b-line"] }
  CurrentView t :=
    { Name := "files", Title := "", Editable := false, Buffer := ""
      BufferLines := if t < T then ["x", "y"] else ["a-line", "b-line"] }
  Commits _ := []
  Stat _ _ := .notExist

/-- A probe on a clock that never passes and reports when it was evaluated. -/
def waitedTest : Nat → ProbeOut :=
  pureProbe (fun t => (false, "waited " ++ toString t))

/-- A probe on a clock that always passes. -/
def readyTest : Nat → ProbeOut :=
  pureProbe (fun t => (true, "ready at " ++ toString t))

/-- A stand-in for Go's regexp library that agrees with it on the pattern
`(`, which does not compile, and on patterns of letters and digits, which
match the strings they occur in. -/
def sampleRegexp : RegexpLib := fun pattern =>
  if pattern = "(" then .error "error parsing regexp: missing closing ): `(`"
  else .ok (fun s => stringsContains s pattern)

/-! ## Notions used by the statements on the engine and on the line assertions -/

/-- The first pass=true result of the probe is on its `k`-th evaluation, the
evaluations being made in the worlds `ws`, in order: the first `k - 1` return
pass=false and the `k`-th returns pass=true. -/
def FirstPassAt {σ : Type} (test : σ → ProbeOut) (ws : List σ) (k : Nat) : Prop :=
  ∃ (pre : List σ) (w : σ) (post : List σ) (message : String),
    ws = pre ++ w :: post ∧ pre.length + 1 = k ∧
      (∀ v ∈ pre, ∃ m, (test v).result = some (false, m)) ∧
      (test w).result = some (true, message)

/-- A probe on a clock that passes from the instant `T` on. -/
def readyFromTest (T : Nat) : Nat → ProbeOut :=
  pureProbe (fun t => (decide (T ≤ t), "waiting at " ++ toString t))

/-- An indexed read stays within its slice; an application of a matcher is
no indexed read. -/
def Access.inBounds : Access → Bool
  | .index len i => decide (i < len)
  | .apply _ _ => true

/-- There is a line for each of the matchers and each matcher passes on the
line at its position. -/
def linesMatch : List matcher → List String → Bool
  | [], _ => true
  | _ :: _, [] => false
  | m :: ms, line :: lines => (m.test line).1 && linesMatch ms lines

/-- A world in which nothing ever changes: every view has the given lines,
sleeping leaves the world as it is, and there is one commit. -/
def frozenEnv (lines : List String) : Env Unit where
  Sleep _ _ := ()
  View _ viewName :=
    { Name := viewName, Title := "", Editable := false, Buffer := "", BufferLines := lines }
  CurrentView _ :=
    { Name := "main", Title := "", Editable := false, Buffer := "", BufferLines := lines }
  Commits _ := ["first commit"]
  Stat _ _ := .nil

/-- A clock on which a view fills slowly: sleeping `d` takes exactly `d`;
every view has no line before 7880 ms and `N` lines from then on, of which
line `i` reads `wait` until `(i + 2) * 7880` ms and `ready` from then on. -/
def slowEnv (N : Nat) : Env Nat where
  Sleep d t := t + d
  View t viewName :=
    { Name := viewName, Title := "", Editable := false, Buffer := ""
      BufferLines :=
        if t < 7880 then []
        else (List.range N).map (fun i => if (i + 2) * 7880 ≤ t then "ready" else "wait") }
  CurrentView _ :=
    { Name := "files", Title := "", Editable := false, Buffer := "", BufferLines := [] }
  Commits _ := []
  Stat _ _ := .notExist

/-! ## Lemmas on traces -/

section TraceLemmas

@[simp]
theorem evals_append (a b : List Event) : evals (a ++ b) = evals a ++ evals b := by
  induction a with
  | nil => rfl
  | cons e es ih => cases e <;> simp [evals, ih]

@[simp]
theorem sleeps_append (a b : List Event) : sleeps (a ++ b) = sleeps a ++ sleeps b := by
  induction a with
  | nil => rfl
  | cons e es ih => cases e <;> simp [sleeps, ih]

@[simp]
theorem failures_append (a b : List Event) :
    failures (a ++ b) = failures a ++ failures b := by
  induction a with
  | nil => rfl
  | cons e es ih => cases e <;> simp [failures, ih]

@[simp]
theorem accesses_append (a b : List Event) :
    accesses (a ++ b) = accesses a ++ accesses b := by
  induction a with
  | nil => rfl
  | cons e es ih => cases e <;> simp [accesses, ih]

@[simp]
theorem engineEvents_append (a b : List Event) :
    engineEvents (a ++ b) = engineEvents a ++ engineEvents b := by
  induction a with
  | nil => rfl
  | cons e es ih => cases e <;> simp [engineEvents, ih]

@[simp]
theorem evals_access (l : List Access) : evals (l.map Event.access) = [] := by
  induction l with
  | nil => rfl
  | cons a as ih => simpa [evals] using ih

@[simp]
theorem sleeps_access (l : List Access) : sleeps (l.map Event.access) = [] := by
  induction l with
  | nil => rfl
  | cons a as ih => simpa [sleeps] using ih

@[simp]
theorem failures_access (l : List Access) : failures (l.map Event.access) = [] := by
  induction l with
  | nil => rfl
  | cons a as ih => simpa [failures] using ih

@[simp]
theorem accesses_access (l : List Access) : accesses (l.map Event.access) = l := by
  induction l with
  | nil => rfl
  | cons a as ih => simpa [accesses] using ih

@[simp]
theorem engineEvents_access (l : List Access) :
    engineEvents (l.map Event.access) = [] := by
  induction l with
  | nil => rfl
  | cons a as ih => simpa [engineEvents] using ih

@[simp]
theorem after_trace {σ : Type} (pre : List Event) (r : Run σ) :
    (Run.after pre r).trace = pre ++ r.trace := rfl

@[simp]
theorem after_outcome {σ : Type} (pre : List Event) (r : Run σ) :
    (Run.after pre r).outcome = r.outcome := rfl

@[simp]
theorem after_world {σ : Type} (pre : List Event) (r : Run σ) :
    (Run.after pre r).world = r.world := rfl

theorem worldAfter_cons {σ : Type} (env : Env σ) (d : Nat) (ds : List Nat) (s : σ) :
    worldAfter env (d :: ds) s = worldAfter env ds (env.Sleep d s) := rfl

end TraceLemmas

/-! ## Lemmas on the retry loop -/

section LoopLemmas

variable {σ : Type}

@[simp]
theorem sleeps_engineEvents (tr : List Event) : sleeps (engineEvents tr) = sleeps tr := by
  induction tr with
  | nil => rfl
  | cons e es ih => cases e <;> simp [engineEvents, sleeps, ih]

@[simp]
theorem evals_engineEvents (tr : List Event) : evals (engineEvents tr) = evals tr := by
  induction tr with
  | nil => rfl
  | cons e es ih => cases e <;> simp [engineEvents, evals, ih]

@[simp]
theorem failures_engineEvents (tr : List Event) :
    failures (engineEvents tr) = failures tr := by
  induction tr with
  | nil => rfl
  | cons e es ih => cases e <;> simp [engineEvents, failures, ih]

@[simp]
theorem engineEvents_sleep (d : Nat) (es : List Event) :
    engineEvents (.sleep d :: es) = .sleep d :: engineEvents es := rfl

@[simp]
theorem engineEvents_eval (ok : Bool) (m : String) (es : List Event) :
    engineEvents (.eval ok m :: es) = .eval ok m :: engineEvents es := rfl

@[simp]
theorem engineEvents_fail (m : String) (es : List Event) :
    engineEvents (.fail m :: es) = .fail m :: engineEvents es := rfl

@[simp]
theorem engineEvents_nil : engineEvents [] = [] := rfl

theorem sleeps_failedRounds (ds : List Nat) (ms : List String) (h : ds.length = ms.length) :
    sleeps (failedRounds ds ms) = ds := by
  induction ds generalizing ms with
  | nil => cases ms <;> simp [failedRounds, sleeps]
  | cons d ds ih =>
    cases ms with
    | nil => simp at h
    | cons m ms => simp [failedRounds, sleeps, ih ms (by simpa using h)]

theorem evals_failedRounds (ds : List Nat) (ms : List String) (h : ds.length = ms.length) :
    evals (failedRounds ds ms) = ms.map (fun m => (false, m)) := by
  induction ds generalizing ms with
  | nil =>
    cases ms with
    | nil => simp [failedRounds, evals]
    | cons m ms => simp at h
  | cons d ds ih =>
    cases ms with
    | nil => simp at h
    | cons m ms => simp [failedRounds, evals, ih ms (by simpa using h)]

theorem failures_failedRounds (ds : List Nat) (ms : List String) :
    failures (failedRounds ds ms) = [] := by
  induction ds generalizing ms with
  | nil => cases ms <;> simp [failedRounds, failures]
  | cons d ds ih =>
    cases ms with
    | nil => simp [failedRounds, failures]
    | cons m ms => simp [failedRounds, failures, ih ms]

@[simp]
theorem evalWorlds_length (env : Env σ) (ds : List Nat) (s : σ) :
    (evalWorlds env ds s).length = ds.length := by
  induction ds generalizing s with
  | nil => rfl
  | cons d ds ih => simp [evalWorlds, ih]

theorem evalWorlds_getLast (env : Env σ) (d : Nat) (ds : List Nat) (s : σ) :
    (evalWorlds env (d :: ds) s).getLast? = some (worldAfter env (d :: ds) s) := by
  induction ds generalizing d s with
  | nil => simp [evalWorlds, worldAfter]
  | cons e es ih =>
    have h := ih e (env.Sleep d s)
    rw [worldAfter_cons]
    rw [← h]
    simp [evalWorlds, List.getLast?_cons_cons]

theorem getLast_getD_cons (a b : String) (l : List String) :
    ((a :: l).getLast?).getD b = (l.getLast?).getD a := by
  cases l with
  | nil => rfl
  | cons c cs =>
    rw [List.getLast?_cons_cons]
    cases h : (c :: cs).getLast? with
    | none => simp at h
    | some x => rfl

theorem retryLoop_nil (env : Env σ) (test : σ → ProbeOut) (m0 : String) (s : σ) :
    retryLoop env test [] m0 s = Fail m0 s := rfl

theorem retryLoop_cons_false (env : Env σ) (test : σ → ProbeOut) (d : Nat) (ds : List Nat)
    (m0 m : String) (s : σ) (h : (test (env.Sleep d s)).result = some (false, m)) :
    retryLoop env test (d :: ds) m0 s =
      Run.after (.sleep d :: ((test (env.Sleep d s)).accesses.map Event.access ++ [.eval false m]))
        (retryLoop env test ds m (env.Sleep d s)) := by
  simp [retryLoop, h]

theorem retryLoop_cons_true (env : Env σ) (test : σ → ProbeOut) (d : Nat) (ds : List Nat)
    (m0 m : String) (s : σ) (h : (test (env.Sleep d s)).result = some (true, m)) :
    retryLoop env test (d :: ds) m0 s =
      { world := env.Sleep d s
        trace := .sleep d :: ((test (env.Sleep d s)).accesses.map Event.access ++ [.eval true m])
        outcome := .returned } := by
  simp [retryLoop, h]

theorem retryLoop_cons_none (env : Env σ) (test : σ → ProbeOut) (d : Nat) (ds : List Nat)
    (m0 : String) (s : σ) (h : (test (env.Sleep d s)).result = none) :
    retryLoop env test (d :: ds) m0 s =
      { world := env.Sleep d s
        trace := .sleep d :: (test (env.Sleep d s)).accesses.map Event.access
        outcome := .panicked } := by
  simp [retryLoop, h]

theorem messageAt_of_result (test : σ → ProbeOut) (s : σ) (ok : Bool) (m : String)
    (h : (test s).result = some (ok, m)) : messageAt test s = m := by
  simp [messageAt, h]

/-- A traversal in which the probe never passes: sleep and failed evaluation
alternate through the whole schedule, then the failure sink gets the message
of the last evaluation (the initial `message` when the schedule is empty). -/
theorem retryLoop_neverPasses (env : Env σ) (test : σ → ProbeOut) (h : NeverPasses test)
    (ds : List Nat) (m0 : String) (s : σ) :
    engineEvents (retryLoop env test ds m0 s).trace =
        failedRounds ds ((evalWorlds env ds s).map (messageAt test)) ++
          [.fail ((((evalWorlds env ds s).map (messageAt test)).getLast?).getD m0)] ∧
      (retryLoop env test ds m0 s).outcome =
        .failed ((((evalWorlds env ds s).map (messageAt test)).getLast?).getD m0) ∧
      (retryLoop env test ds m0 s).world = worldAfter env ds s := by
  induction ds generalizing m0 s with
  | nil => simp [retryLoop_nil, Fail, evalWorlds, failedRounds, engineEvents, worldAfter]
  | cons d ds ih =>
    obtain ⟨m, hm⟩ := h (env.Sleep d s)
    have hmsg := messageAt_of_result test _ _ _ hm
    obtain ⟨h1, h2, h3⟩ := ih m (env.Sleep d s)
    rw [retryLoop_cons_false env test d ds m0 m s hm]
    have hlast := getLast_getD_cons m m0 ((evalWorlds env ds (env.Sleep d s)).map (messageAt test))
    refine ⟨?_, ?_, ?_⟩
    · simp [h1, evalWorlds, failedRounds, hmsg, hlast]
    · simp only [after_outcome, h2, evalWorlds, List.map_cons, hmsg, hlast]
    · simpa [worldAfter_cons] using h3

/-- The measures of a traversal in which the probe never passes. -/
theorem retryLoop_neverPasses_measures (env : Env σ) (test : σ → ProbeOut)
    (h : NeverPasses test) (ds : List Nat) (m0 : String) (s : σ) :
    sleeps (retryLoop env test ds m0 s).trace = ds ∧
      evals (retryLoop env test ds m0 s).trace =
        (evalWorlds env ds s).map (fun w => (false, messageAt test w)) ∧
      failures (retryLoop env test ds m0 s).trace =
        [(((evalWorlds env ds s).map (messageAt test)).getLast?).getD m0] := by
  obtain ⟨h1, _, _⟩ := retryLoop_neverPasses env test h ds m0 s
  have hlen : ds.length = ((evalWorlds env ds s).map (messageAt test)).length := by simp
  refine ⟨?_, ?_, ?_⟩
  · rw [← sleeps_engineEvents, h1, sleeps_append, sleeps_failedRounds _ _ hlen]
    simp [sleeps]
  · rw [← evals_engineEvents, h1, evals_append, evals_failedRounds _ _ hlen]
    simp [evals]
  · rw [← failures_engineEvents, h1, failures_append, failures_failedRounds]
    simp [failures]

/-- The last message of a traversal of the whole schedule is the one of the
probe in the world after all sixteen sleeps. -/
theorem lastMessage_waitTimes (env : Env σ) (test : σ → ProbeOut) (m0 : String) (s : σ) :
    (((evalWorlds env waitTimes s).map (messageAt test)).getLast?).getD m0 =
      messageAt test (worldAfter env waitTimes s) := by
  have h := evalWorlds_getLast env 0 [1, 1, 1, 1, 1, 5, 10, 20, 40, 100, 200, 500, 1000, 2000, 4000] s
  have hw : waitTimes = 0 :: [1, 1, 1, 1, 1, 5, 10, 20, 40, 100, 200, 500, 1000, 2000, 4000] := rfl
  rw [hw, List.getLast?_map, h]
  rfl

end LoopLemmas

/-! ## Lemmas on strings -/

section StringLemmas

theorem containsChars_iff (substr l : List Char) :
    containsChars substr l = true ↔ substr <:+: l := by
  induction l with
  | nil => simp [containsChars, List.infix_nil]
  | cons c cs ih =>
    rw [List.infix_cons_iff, containsChars, Bool.or_eq_true, ih, List.isPrefixOf_iff_prefix]

/-- The search of `strings.Contains` succeeds exactly on the strings in which
the text occurs. -/
theorem stringsContains_iff_occurs (s substr : String) :
    stringsContains s substr = true ↔ Occurs substr s := by
  unfold stringsContains Occurs
  rw [containsChars_iff]
  constructor
  · rintro ⟨pre, post, h⟩
    refine ⟨⟨pre⟩, ⟨post⟩, ?_⟩
    apply String.ext
    simp [String.data_append, h]
  · rintro ⟨pre, post, h⟩
    refine ⟨pre.data, post.data, ?_⟩
    rw [h]
    simp [String.data_append]

theorem occurs_mid (pre part post : String) : Occurs part (pre ++ part ++ post) :=
  ⟨pre, post, rfl⟩

theorem occurs_append_right (part whole post : String) (h : Occurs part whole) :
    Occurs part (whole ++ post) := by
  obtain ⟨a, b, rfl⟩ := h
  exact ⟨a, b ++ post, by simp [String.append_assoc]⟩

theorem occurs_append_left (part pre whole : String) (h : Occurs part whole) :
    Occurs part (pre ++ whole) := by
  obtain ⟨a, b, rfl⟩ := h
  exact ⟨pre ++ a, b, by simp [String.append_assoc]⟩

theorem occurs_end (pre part : String) : Occurs part (pre ++ part) :=
  ⟨pre, "", by simp⟩

end StringLemmas

/-! ## Lemmas on sequencing and on probes that pass from some instant on -/

section SequencingLemmas

variable {σ : Type}

theorem andThen_of_returned (r : Run σ) (rest : σ → Run σ) (h : r.outcome = .returned) :
    r.andThen rest = Run.after r.trace (rest r.world) := by
  simp [Run.andThen, h]

theorem andThen_of_failed (r : Run σ) (rest : σ → Run σ) (message : String)
    (h : r.outcome = .failed message) : r.andThen rest = r := by
  simp [Run.andThen, h]

/-- Two statements that both return without a failure do so in sequence. -/
theorem andThen_returned_clean (r : Run σ) (rest : σ → Run σ)
    (h1 : r.outcome = .returned) (h2 : failures r.trace = [])
    (h3 : (rest r.world).outcome = .returned) (h4 : failures (rest r.world).trace = []) :
    (r.andThen rest).outcome = .returned ∧ failures (r.andThen rest).trace = [] ∧
      (r.andThen rest).world = (rest r.world).world := by
  rw [andThen_of_returned r rest h1]
  simp [h2, h3, h4]

/-- A probe without accesses leaves none in the trace of the loop. -/
theorem retryLoop_accesses_nil (env : Env σ) (test : σ → ProbeOut)
    (h : ∀ w, (test w).accesses = []) (ds : List Nat) (m0 : String) (s : σ) :
    accesses (retryLoop env test ds m0 s).trace = [] := by
  induction ds generalizing m0 s with
  | nil => simp [retryLoop_nil, Fail, accesses]
  | cons d ds ih =>
    cases hres : (test (env.Sleep d s)).result with
    | none => simp [retryLoop_cons_none env test d ds m0 s hres, accesses, h]
    | some res =>
      obtain ⟨ok, m⟩ := res
      cases ok with
      | true => simp [retryLoop_cons_true env test d ds m0 m s hres, accesses, h]
      | false => simp [retryLoop_cons_false env test d ds m0 m s hres, accesses, h, ih]

/-- On a world with a clock `now` that a sleep of `d` advances by at least `d`:
a probe that fails before the instant `T` and passes from `T` on makes the
loop return without a failure as soon as the schedule reaches `T`. -/
theorem retryLoop_passes_by (env : Env σ) (test : σ → ProbeOut) (now : σ → Nat) (T : Nat)
    (hsleep : ∀ d w, now w + d ≤ now (env.Sleep d w))
    (hlate : ∀ w, T ≤ now w → ∃ m, (test w).result = some (true, m))
    (hearly : ∀ w, now w < T → ∃ m, (test w).result = some (false, m))
    (ds : List Nat) (d : Nat) (m0 : String) (s : σ) (hT : T ≤ now s + (d :: ds).sum) :
    (retryLoop env test (d :: ds) m0 s).outcome = .returned ∧
      failures (retryLoop env test (d :: ds) m0 s).trace = [] ∧
      T ≤ now (retryLoop env test (d :: ds) m0 s).world ∧
      now s ≤ now (retryLoop env test (d :: ds) m0 s).world := by
  induction ds generalizing d m0 s with
  | nil =>
    have hd : T ≤ now (env.Sleep d s) := by
      have := hsleep d s
      simp at hT
      omega
    obtain ⟨m, hm⟩ := hlate _ hd
    rw [retryLoop_cons_true env test d [] m0 m s hm]
    have := hsleep d s
    refine ⟨rfl, by simp [failures], hd, by simp only; omega⟩
  | cons e es ih =>
    by_cases hd : T ≤ now (env.Sleep d s)
    · obtain ⟨m, hm⟩ := hlate _ hd
      rw [retryLoop_cons_true env test d (e :: es) m0 m s hm]
      have := hsleep d s
      refine ⟨rfl, by simp [failures], hd, by simp only; omega⟩
    · obtain ⟨m, hm⟩ := hearly (env.Sleep d s) (by omega)
      rw [retryLoop_cons_false env test d (e :: es) m0 m s hm]
      have hstep := hsleep d s
      have hT2 : T ≤ now (env.Sleep d s) + (e :: es).sum := by
        simp only [List.sum_cons] at hT ⊢
        omega
      obtain ⟨h1, h2, h3, h4⟩ := ih e m (env.Sleep d s) hT2
      refine ⟨by simpa using h1, by simp [failures, h2], by simpa using h3, ?_⟩
      simp only [after_world]
      omega

/-- The probe of `matchString` on line `i` of a view that has such a line. -/
theorem matchStringTest_line (env : Env σ) (m : matcher) (context viewName : String) (i : Nat)
    (w : σ) (value : String) (h : (env.View w viewName).BufferLines.get? i = some value) :
    (matchStringTest m context (bufferLineAt env viewName i) w).result =
      some ((m.testFn value).1, context ++ " " ++ (m.testFn value).2) := by
  simp only [matchStringTest, bufferLineAt, h, matcher.context, matcher.test]

/-- The statement of `retryLoop_passes_by` for the method and its schedule. -/
theorem assertWithRetries_passes_by (env : Env σ) (test : σ → ProbeOut) (now : σ → Nat)
    (T : Nat) (hsleep : ∀ d w, now w + d ≤ now (env.Sleep d w))
    (hlate : ∀ w, T ≤ now w → ∃ m, (test w).result = some (true, m))
    (hearly : ∀ w, now w < T → ∃ m, (test w).result = some (false, m))
    (s : σ) (hT : T ≤ now s + waitTimes.sum) :
    (assertWithRetries env test s).outcome = .returned ∧
      failures (assertWithRetries env test s).trace = [] ∧
      T ≤ now (assertWithRetries env test s).world ∧
      now s ≤ now (assertWithRetries env test s).world :=
  retryLoop_passes_by env test now T hsleep hlate hearly
    [1, 1, 1, 1, 1, 5, 10, 20, 40, 100, 200, 500, 1000, 2000, 4000] 0 "" s hT

end SequencingLemmas

/-! ## Lemmas on probes with the same pass flags -/

section FlagLemmas

variable {σ : Type}

/-- Two probes that return the same pass flag in every world make the loop
sleep, evaluate and end alike; only the messages may differ. -/
theorem retryLoop_same_flags (env : Env σ) (t1 t2 : σ → ProbeOut)
    (h : ∀ w, ∃ ok m1 m2, (t1 w).result = some (ok, m1) ∧ (t2 w).result = some (ok, m2))
    (ds : List Nat) (a b : String) (s : σ) :
    sleeps (retryLoop env t1 ds a s).trace = sleeps (retryLoop env t2 ds b s).trace ∧
      (evals (retryLoop env t1 ds a s).trace).map Prod.fst =
        (evals (retryLoop env t2 ds b s).trace).map Prod.fst ∧
      (failures (retryLoop env t1 ds a s).trace).length =
        (failures (retryLoop env t2 ds b s).trace).length ∧
      (retryLoop env t1 ds a s).world = (retryLoop env t2 ds b s).world ∧
      ((retryLoop env t1 ds a s).outcome = .returned ↔
        (retryLoop env t2 ds b s).outcome = .returned) := by
  induction ds generalizing a b s with
  | nil => simp [retryLoop_nil, Fail, sleeps, evals, failures]
  | cons d ds ih =>
    obtain ⟨ok, m1, m2, h1, h2⟩ := h (env.Sleep d s)
    cases ok with
    | true =>
      rw [retryLoop_cons_true env t1 d ds a m1 s h1, retryLoop_cons_true env t2 d ds b m2 s h2]
      simp [sleeps, evals, failures]
    | false =>
      rw [retryLoop_cons_false env t1 d ds a m1 s h1, retryLoop_cons_false env t2 d ds b m2 s h2]
      obtain ⟨i1, i2, i3, i4, i5⟩ := ih m1 m2 (env.Sleep d s)
      simp [sleeps, evals, failures, i1, i2, i3, i4, i5]

end FlagLemmas

/-! ## Lemmas on the evaluation at which the probe first passes -/

section FirstPassLemmas

variable {σ : Type}

/-- When the evaluations before the world `w` fail and the one in `w` passes,
the loop stops there: it has slept the schedule entries up to that one. -/
theorem retryLoop_firstPass (env : Env σ) (test : σ → ProbeOut) (pre : List σ) (w : σ)
    (post : List σ) (message : String) (ds : List Nat) (m0 : String) (s : σ)
    (hws : evalWorlds env ds s = pre ++ w :: post)
    (hpre : ∀ v ∈ pre, ∃ m, (test v).result = some (false, m))
    (hw : (test w).result = some (true, message)) :
    sleeps (retryLoop env test ds m0 s).trace = ds.take (pre.length + 1) ∧
      evals (retryLoop env test ds m0 s).trace =
        pre.map (fun v => (false, messageAt test v)) ++ [(true, message)] ∧
      failures (retryLoop env test ds m0 s).trace = [] ∧
      (retryLoop env test ds m0 s).outcome = .returned ∧
      (retryLoop env test ds m0 s).world = w := by
  induction pre generalizing ds m0 s with
  | nil =>
    cases ds with
    | nil => simp [evalWorlds] at hws
    | cons d ds =>
      simp only [evalWorlds, List.nil_append, List.cons.injEq] at hws
      obtain ⟨hd, _⟩ := hws
      rw [← hd] at hw
      rw [retryLoop_cons_true env test d ds m0 message s hw]
      simp [sleeps, evals, failures, hd]
  | cons v pre ih =>
    cases ds with
    | nil => simp [evalWorlds] at hws
    | cons d ds =>
      simp only [evalWorlds, List.cons_append, List.cons.injEq] at hws
      obtain ⟨hd, hrest⟩ := hws
      obtain ⟨m, hm⟩ := hpre v (List.mem_cons_self _ _)
      have hmsg : messageAt test v = m := messageAt_of_result test v false m hm
      rw [← hd] at hm
      rw [retryLoop_cons_false env test d ds m0 m s hm]
      obtain ⟨i1, i2, i3, i4, i5⟩ := ih ds m (env.Sleep d s) hrest
        (fun u hu => hpre u (List.mem_cons_of_mem _ hu))
      simp [sleeps, evals, failures, i1, i2, i3, i4, i5, hmsg]

/-- The loop calls the failure sink, once, exactly when every evaluation of
the traversal returns pass=false. -/
theorem retryLoop_failures_iff (env : Env σ) (test : σ → ProbeOut) (ds : List Nat)
    (m0 : String) (s : σ) :
    (failures (retryLoop env test ds m0 s).trace ≠ [] ↔
        ∀ w ∈ evalWorlds env ds s, ∃ m, (test w).result = some (false, m)) ∧
      (failures (retryLoop env test ds m0 s).trace).length ≤ 1 := by
  induction ds generalizing m0 s with
  | nil => simp [retryLoop_nil, Fail, failures, evalWorlds]
  | cons d ds ih =>
    cases hres : (test (env.Sleep d s)).result with
    | none =>
      rw [retryLoop_cons_none env test d ds m0 s hres]
      simp [failures, evalWorlds, hres]
    | some res =>
      obtain ⟨ok, m⟩ := res
      cases ok with
      | true =>
        rw [retryLoop_cons_true env test d ds m0 m s hres]
        simp [failures, evalWorlds, hres]
      | false =>
        rw [retryLoop_cons_false env test d ds m0 m s hres]
        obtain ⟨i1, i2⟩ := ih m (env.Sleep d s)
        refine ⟨?_, by simpa [failures] using i2⟩
        have htr : failures (Run.after (.sleep d ::
            ((test (env.Sleep d s)).accesses.map Event.access ++ [.eval false m]))
            (retryLoop env test ds m (env.Sleep d s))).trace =
            failures (retryLoop env test ds m (env.Sleep d s)).trace := by
          simp [failures]
        rw [htr, i1]
        simp [evalWorlds, hres]

end FirstPassLemmas

/-! ## Lemmas on assertions over contents that do not change -/

section StaticLemmas

variable {σ : Type}

theorem assertWithRetries_first_true (env : Env σ) (test : σ → ProbeOut) (s : σ) (m : String)
    (h : (test (env.Sleep 0 s)).result = some (true, m)) :
    (assertWithRetries env test s).outcome = .returned ∧
      failures (assertWithRetries env test s).trace = [] ∧
      sleeps (assertWithRetries env test s).trace = [0] ∧
      (assertWithRetries env test s).world = env.Sleep 0 s := by
  have hrun := retryLoop_cons_true env test 0
    [1, 1, 1, 1, 1, 5, 10, 20, 40, 100, 200, 500, 1000, 2000, 4000] "" m s h
  have hw : assertWithRetries env test s = retryLoop env test
      (0 :: [1, 1, 1, 1, 1, 5, 10, 20, 40, 100, 200, 500, 1000, 2000, 4000]) "" s := rfl
  rw [hw, hrun]
  simp [sleeps, failures]

theorem assertWithRetries_always_false (env : Env σ) (test : σ → ProbeOut) (s : σ) (m : String)
    (h : ∀ w, (test w).result = some (false, m)) :
    (assertWithRetries env test s).outcome = .failed m ∧
      failures (assertWithRetries env test s).trace = [m] ∧
      sleeps (assertWithRetries env test s).trace = waitTimes := by
  have hnever : NeverPasses test := fun w => ⟨m, h w⟩
  obtain ⟨hs, _, hf⟩ := retryLoop_neverPasses_measures env test hnever waitTimes "" s
  obtain ⟨_, ho, _⟩ := retryLoop_neverPasses env test hnever waitTimes "" s
  rw [lastMessage_waitTimes, messageAt_of_result test _ _ _ (h _)] at hf ho
  exact ⟨ho, hf, hs⟩

/-- What holds of everything a probe does holds of everything in the trace of
the loop. -/
theorem retryLoop_accesses_all (env : Env σ) (test : σ → ProbeOut) (P : Access → Prop)
    (h : ∀ w, ∀ a ∈ (test w).accesses, P a) (ds : List Nat) (m0 : String) (s : σ) :
    ∀ a ∈ accesses (retryLoop env test ds m0 s).trace, P a := by
  induction ds generalizing m0 s with
  | nil => simp [retryLoop_nil, Fail, accesses]
  | cons d ds ih =>
    cases hres : (test (env.Sleep d s)).result with
    | none =>
      rw [retryLoop_cons_none env test d ds m0 s hres]
      simpa [accesses] using h (env.Sleep d s)
    | some res =>
      obtain ⟨ok, m⟩ := res
      cases ok with
      | true =>
        rw [retryLoop_cons_true env test d ds m0 m s hres]
        simpa [accesses] using h (env.Sleep d s)
      | false =>
        rw [retryLoop_cons_false env test d ds m0 m s hres]
        have htr : accesses (Run.after (.sleep d ::
            ((test (env.Sleep d s)).accesses.map Event.access ++ [.eval false m]))
            (retryLoop env test ds m (env.Sleep d s))).trace =
            (test (env.Sleep d s)).accesses ++
              accesses (retryLoop env test ds m (env.Sleep d s)).trace := by
          simp [accesses]
        intro a ha
        rw [htr, List.mem_append] at ha
        rcases ha with ha | ha
        · exact h (env.Sleep d s) a ha
        · exact ih m (env.Sleep d s) a ha

/-- A `matchString` whose `getValue` gives the same reads and the same value
in every world: everything it does is one of these reads or the application
of the matcher, and it returns or fails with the matcher on that value. -/
theorem matchString_const (env : Env σ) (m : matcher) (context : String)
    (getValue : σ → List Access × Option String) (reads : List Access) (value : String)
    (h : ∀ w, getValue w = (reads, some value)) (s : σ) :
    (∀ a ∈ accesses (matchString env m context getValue s).trace,
        a ∈ reads ∨ a = .apply m.name value) ∧
      ((m.test value).1 = true →
        (matchString env m context getValue s).outcome = .returned ∧
          failures (matchString env m context getValue s).trace = []) ∧
      ((m.test value).1 = false →
        (matchString env m context getValue s).outcome =
            .failed (context ++ " " ++ (m.test value).2) ∧
          failures (matchString env m context getValue s).trace =
            [context ++ " " ++ (m.test value).2]) := by
  have hres : ∀ w, (matchStringTest m context getValue w).result =
      some ((m.test value).1, context ++ " " ++ (m.test value).2) := by
    intro w
    simp only [matchStringTest, h w, matcher.context, matcher.test]
  have hacc : ∀ w, (matchStringTest m context getValue w).accesses =
      reads ++ [.apply m.name value] := by
    intro w
    simp only [matchStringTest, h w]
  refine ⟨?_, ?_, ?_⟩
  · exact retryLoop_accesses_all env _ (fun a => a ∈ reads ∨ a = .apply m.name value)
      (fun w a ha => by
        rw [hacc w] at ha
        simpa using ha) waitTimes "" s
  · intro hflag
    have := assertWithRetries_first_true env (matchStringTest m context getValue) s
      (context ++ " " ++ (m.test value).2) (by rw [hres, hflag])
    exact ⟨this.1, this.2.1⟩
  · intro hflag
    have := assertWithRetries_always_false env (matchStringTest m context getValue) s
      (context ++ " " ++ (m.test value).2) (fun w => by rw [hres, hflag])
    exact ⟨this.1, this.2.1⟩

theorem andThen_accesses (r : Run σ) (rest : σ → Run σ) (P : Access → Prop)
    (h1 : ∀ a ∈ accesses r.trace, P a) (h2 : ∀ w, ∀ a ∈ accesses (rest w).trace, P a) :
    ∀ a ∈ accesses (r.andThen rest).trace, P a := by
  unfold Run.andThen
  split
  · intro a ha
    simp only [after_trace, accesses_append, List.mem_append] at ha
    rcases ha with ha | ha
    · exact h1 a ha
    · exact h2 _ a ha
  · exact h1

/-- The loop over the matchers against lines that do not change, from an
index from which there is a line for each remaining matcher: every indexed
read is within bounds, and the loop returns without a failure when the
matchers pass on their lines and ends in the failure sink otherwise. -/
theorem linesLoop_static (env : Env σ) (viewName : String) (lines : List String)
    (hlines : ∀ w, (env.View w viewName).BufferLines = lines) (ms : List matcher) (i : Nat)
    (s : σ) (hb : i + ms.length ≤ lines.length) :
    (∀ a ∈ accesses (linesLoop env viewName ms i s).trace, a.inBounds = true) ∧
      ((linesLoop env viewName ms i s).outcome = .returned ↔
        linesMatch ms (lines.drop i) = true) ∧
      (failures (linesLoop env viewName ms i s).trace = [] ↔
        linesMatch ms (lines.drop i) = true) ∧
      ((linesLoop env viewName ms i s).outcome = .returned ∨
        ∃ message, (linesLoop env viewName ms i s).outcome = .failed message) := by
  induction ms generalizing i s with
  | nil => simp [linesLoop, accesses, failures, linesMatch]
  | cons m ms ih =>
    have hi : i < lines.length := by
      simp only [List.length_cons] at hb
      omega
    have hdrop : lines.drop i = lines[i] :: lines.drop (i + 1) := List.drop_eq_getElem_cons hi
    have hget : ∀ w, bufferLineAt env viewName i w =
        ([.index lines.length i], some lines[i]) := by
      intro w
      simp only [bufferLineAt, hlines w]
      rw [List.get?_eq_getElem?, List.getElem?_eq_getElem hi]
    obtain ⟨hacc, hpass, hfail⟩ := matchString_const env m
      ("Unexpected content in view '" ++ viewName ++ "'.") (bufferLineAt env viewName i)
      [.index lines.length i] lines[i] hget s
    have hacc2 : ∀ a ∈ accesses (matchString env m
        ("Unexpected content in view '" ++ viewName ++ "'.")
        (bufferLineAt env viewName i) s).trace, a.inBounds = true := by
      intro a ha
      rcases hacc a ha with hmem | rfl
      · simp only [List.mem_singleton] at hmem
        subst hmem
        simp [Access.inBounds, hi]
      · rfl
    have hih := fun w => ih (i + 1) w (by simp only [List.length_cons] at hb; omega)
    refine ⟨?_, ?_⟩
    · exact andThen_accesses _ _ _ hacc2 (fun w => (hih w).1)
    · rw [hdrop]
      simp only [linesLoop, linesMatch]
      cases hflag : (m.test lines[i]).1 with
      | true =>
        obtain ⟨ho, hf⟩ := hpass hflag
        rw [andThen_of_returned _ _ ho]
        obtain ⟨_, j2, j3, j4⟩ := hih (matchString env m
          ("Unexpected content in view '" ++ viewName ++ "'.")
          (bufferLineAt env viewName i) s).world
        simp only [after_outcome, after_trace, failures_append, hf, List.nil_append,
          Bool.true_and]
        exact ⟨j2, j3, j4⟩
      | false =>
        obtain ⟨ho, hf⟩ := hfail hflag
        rw [andThen_of_failed _ _ _ ho]
        simp [ho, hf]

theorem linesMatch_iff (ms : List matcher) (lines : List String) :
    linesMatch ms lines = true ↔
      ms.length ≤ lines.length ∧
        ∀ i m line, ms.get? i = some m → lines.get? i = some line → (m.test line).1 = true := by
  induction ms generalizing lines with
  | nil => simp [linesMatch]
  | cons m ms ih =>
    cases lines with
    | nil => simp [linesMatch]
    | cons line lines =>
      simp only [linesMatch, Bool.and_eq_true, ih, List.length_cons, Nat.add_le_add_iff_right]
      constructor
      · rintro ⟨h0, hlen, hrest⟩
        refine ⟨hlen, ?_⟩
        intro i m' line' hm hl
        cases i with
        | zero =>
          simp only [List.get?_cons_zero, Option.some.injEq] at hm hl
          subst hm hl
          exact h0
        | succ i => exact hrest i m' line' (by simpa using hm) (by simpa using hl)
      · rintro ⟨hlen, hall⟩
        refine ⟨hall 0 m line rfl rfl, hlen, ?_⟩
        intro i m' line' hm hl
        exact hall (i + 1) m' line' (by simpa using hm) (by simpa using hl)

theorem linesMatch_take (ms : List matcher) (lines : List String) :
    linesMatch ms (lines.take ms.length) = linesMatch ms lines := by
  induction ms generalizing lines with
  | nil => simp [linesMatch]
  | cons m ms ih =>
    cases lines with
    | nil => simp [linesMatch]
    | cons line lines => simp [linesMatch, ih]

end StaticLemmas

/-! ## Lemmas on the line assertions over a view that does not change -/

section StaticViewLemmas

variable {σ : Type}

/-- A check with an unchanging result followed by the loop over the matchers:
when the check fails the loop is not entered, and when it passes and there is
a line for each matcher the loop decides. -/
theorem checkedLinesLoop_static (env : Env σ) (viewName : String) (lines : List String)
    (hlines : ∀ w, (env.View w viewName).BufferLines = lines) (ms : List matcher)
    (f : σ → Bool × String) (ok : Bool) (message : String) (hf : ∀ w, f w = (ok, message))
    (hok : ok = true → ms.length ≤ lines.length) (s : σ) :
    (∀ a ∈ accesses ((assertWithRetries env (pureProbe f) s).andThen
          (linesLoop env viewName ms 0)).trace, a.inBounds = true) ∧
      (((assertWithRetries env (pureProbe f) s).andThen
          (linesLoop env viewName ms 0)).outcome = .returned ↔
        ok = true ∧ linesMatch ms lines = true) ∧
      (failures ((assertWithRetries env (pureProbe f) s).andThen
          (linesLoop env viewName ms 0)).trace = [] ↔
        ok = true ∧ linesMatch ms lines = true) ∧
      (((assertWithRetries env (pureProbe f) s).andThen
          (linesLoop env viewName ms 0)).outcome = .returned ∨
        ∃ m, ((assertWithRetries env (pureProbe f) s).andThen
          (linesLoop env viewName ms 0)).outcome = .failed m) := by
  have hres : ∀ w, (pureProbe f w).result = some (ok, message) := by
    intro w
    simp only [pureProbe, hf w]
  have hacc : ∀ a ∈ accesses (assertWithRetries env (pureProbe f) s).trace,
      a.inBounds = true := by
    intro a ha
    have := retryLoop_accesses_nil env (pureProbe f) (fun _ => rfl) waitTimes "" s
    unfold assertWithRetries at ha
    rw [this] at ha
    simp at ha
  cases ok with
  | true =>
    obtain ⟨ho, hfl, _, _⟩ := assertWithRetries_first_true env (pureProbe f) s message (hres _)
    have hloop := fun w => linesLoop_static env viewName lines hlines ms 0 w
      (by simpa using hok rfl)
    refine ⟨andThen_accesses _ _ _ hacc (fun w => (hloop w).1), ?_⟩
    rw [andThen_of_returned _ _ ho]
    obtain ⟨_, j2, j3, j4⟩ := hloop (assertWithRetries env (pureProbe f) s).world
    simp only [List.drop_zero] at j2 j3
    simp only [after_outcome, after_trace, failures_append, hfl, List.nil_append, true_and]
    exact ⟨j2, j3, j4⟩
  | false =>
    obtain ⟨ho, hfl, _⟩ := assertWithRetries_always_false env (pureProbe f) s message hres
    rw [andThen_of_failed _ _ _ ho]
    refine ⟨hacc, ?_⟩
    simp [ho, hfl]

theorem ViewLines_static (env : Env σ) (viewName : String) (lines : List String)
    (hlines : ∀ w, (env.View w viewName).BufferLines = lines) (ms : List matcher) (s : σ) :
    (∀ a ∈ accesses (ViewLines env viewName ms s).trace, a.inBounds = true) ∧
      ((ViewLines env viewName ms s).outcome = .returned ↔
        lines.length = ms.length ∧ linesMatch ms lines = true) ∧
      (failures (ViewLines env viewName ms s).trace = [] ↔
        lines.length = ms.length ∧ linesMatch ms lines = true) ∧
      ((ViewLines env viewName ms s).outcome = .returned ∨
        ∃ m, (ViewLines env viewName ms s).outcome = .failed m) := by
  have h := checkedLinesLoop_static env viewName lines hlines ms
    (fun w => (decide ((env.View w viewName).BufferLines.length = ms.length),
      "unexpected number of lines in view. Expected " ++ toString ms.length ++ ", got "
        ++ toString (env.View w viewName).BufferLines.length))
    (decide (lines.length = ms.length))
    ("unexpected number of lines in view. Expected " ++ toString ms.length ++ ", got "
        ++ toString lines.length)
    (fun w => by simp only [hlines w])
    (fun hok => by
      have := of_decide_eq_true hok
      omega) s
  simpa only [decide_eq_true_eq] using h

/-- `HeadCommitMessage` over a list of commits that does not change: the read
of the first commit is within bounds and the call returns or ends in the
failure sink. -/
theorem HeadCommitMessage_static (env : Env σ) (commits : List String)
    (hcommits : ∀ w, env.Commits w = commits) (m : matcher) (s : σ) :
    (∀ a ∈ accesses (HeadCommitMessage env m s).trace, a.inBounds = true) ∧
      ((HeadCommitMessage env m s).outcome = .returned ∨
        ∃ message, (HeadCommitMessage env m s).outcome = .failed message) := by
  have hacc : ∀ a ∈ accesses (assertWithRetries env (atLeastOneCommitTest env) s).trace,
      a.inBounds = true := by
    intro a ha
    have := retryLoop_accesses_nil env (atLeastOneCommitTest env) (fun _ => rfl) waitTimes "" s
    unfold assertWithRetries at ha
    rw [this] at ha
    simp at ha
  unfold HeadCommitMessage
  cases hc : commits with
  | nil =>
    have hres : ∀ w, (atLeastOneCommitTest env w).result =
        some (false, "Expected at least one commit to be present") := by
      intro w
      simp [atLeastOneCommitTest, pureProbe, hcommits w, hc]
    obtain ⟨ho, _, _⟩ := assertWithRetries_always_false env _ s _ hres
    rw [andThen_of_failed _ _ _ ho]
    exact ⟨hacc, Or.inr ⟨_, ho⟩⟩
  | cons c cs =>
    have hres : ∀ w, (atLeastOneCommitTest env w).result =
        some (true, "Expected at least one commit to be present") := by
      intro w
      simp [atLeastOneCommitTest, pureProbe, hcommits w, hc]
    obtain ⟨ho, _, _, _⟩ := assertWithRetries_first_true env _ s _ (hres _)
    have hget : ∀ w, headCommitName env w = ([.index (c :: cs).length 0], some c) := by
      intro w
      simp [headCommitName, hcommits w, hc]
    have hms := fun w => matchString_const env m "Unexpected commit message."
      (headCommitName env) [.index (c :: cs).length 0] c hget w
    have hacc2 : ∀ w, ∀ a ∈ accesses (matchString env m "Unexpected commit message."
        (headCommitName env) w).trace, a.inBounds = true := by
      intro w a ha
      rcases (hms w).1 a ha with hmem | rfl
      · simp only [List.mem_singleton] at hmem
        subst hmem
        simp [Access.inBounds]
      · rfl
    refine ⟨andThen_accesses _ _ _ hacc hacc2, ?_⟩
    rw [andThen_of_returned _ _ ho]
    simp only [after_outcome]
    cases hflag : (m.test c).1 with
    | true => exact Or.inl ((hms _).2.1 hflag).1
    | false => exact Or.inr ⟨_, ((hms _).2.2 hflag).1⟩

theorem ViewTopLines_static (env : Env σ) (viewName : String) (lines : List String)
    (hlines : ∀ w, (env.View w viewName).BufferLines = lines) (ms : List matcher) (s : σ) :
    (∀ a ∈ accesses (ViewTopLines env viewName ms s).trace, a.inBounds = true) ∧
      ((ViewTopLines env viewName ms s).outcome = .returned ↔ linesMatch ms lines = true) ∧
      (failures (ViewTopLines env viewName ms s).trace = [] ↔ linesMatch ms lines = true) ∧
      ((ViewTopLines env viewName ms s).outcome = .returned ∨
        ∃ m, (ViewTopLines env viewName ms s).outcome = .failed m) := by
  have h := checkedLinesLoop_static env viewName lines hlines ms
    (fun w => (decide ((env.View w viewName).BufferLines.length ≥ ms.length),
      "unexpected number of lines in view. Expected at least " ++ toString ms.length ++ ", got "
        ++ toString (env.View w viewName).BufferLines.length))
    (decide (lines.length ≥ ms.length))
    ("unexpected number of lines in view. Expected at least " ++ toString ms.length ++ ", got "
        ++ toString lines.length)
    (fun w => by simp only [hlines w])
    (fun hok => of_decide_eq_true hok) s
  have hlen : linesMatch ms lines = true → lines.length ≥ ms.length :=
    fun hm => ((linesMatch_iff ms lines).mp hm).1
  obtain ⟨h1, h2, h3, h4⟩ := h
  refine ⟨h1, ?_, ?_, h4⟩
  · exact h2.trans ⟨fun hh => hh.2, fun hm => ⟨decide_eq_true (hlen hm), hm⟩⟩
  · exact h3.trans ⟨fun hh => hh.2, fun hm => ⟨decide_eq_true (hlen hm), hm⟩⟩

end StaticViewLemmas

/-! ## Lemmas on the time slept -/

section SleptLemmas

variable {σ : Type}

theorem slept_append (a b : List Event) : slept (a ++ b) = slept a + slept b := by
  simp [slept]

/-- The loop sleeps at most the sum of the schedule it is given. -/
theorem retryLoop_slept_le (env : Env σ) (test : σ → ProbeOut) (ds : List Nat) (m0 : String)
    (s : σ) : slept (retryLoop env test ds m0 s).trace ≤ ds.sum := by
  induction ds generalizing m0 s with
  | nil => simp [retryLoop_nil, Fail, slept, sleeps]
  | cons d ds ih =>
    cases hres : (test (env.Sleep d s)).result with
    | none =>
      rw [retryLoop_cons_none env test d ds m0 s hres]
      simp [slept, sleeps]
    | some res =>
      obtain ⟨ok, m⟩ := res
      cases ok with
      | true =>
        rw [retryLoop_cons_true env test d ds m0 m s hres]
        simp [slept, sleeps]
      | false =>
        rw [retryLoop_cons_false env test d ds m0 m s hres]
        have := ih m (env.Sleep d s)
        have htr : slept (Run.after (.sleep d ::
            ((test (env.Sleep d s)).accesses.map Event.access ++ [.eval false m]))
            (retryLoop env test ds m (env.Sleep d s))).trace =
            d + slept (retryLoop env test ds m (env.Sleep d s)).trace := by
          simp [slept, sleeps]
        rw [htr, List.sum_cons]
        omega

theorem andThen_slept_le (r : Run σ) (rest : σ → Run σ) (B : Nat)
    (h : ∀ w, slept (rest w).trace ≤ B) :
    slept (r.andThen rest).trace ≤ slept r.trace + B := by
  unfold Run.andThen
  split
  · rw [after_trace, slept_append]
    have := h r.world
    omega
  · omega

theorem linesLoop_slept_le (env : Env σ) (viewName : String) (ms : List matcher) (i : Nat)
    (s : σ) : slept (linesLoop env viewName ms i s).trace ≤ ms.length * waitTimes.sum := by
  induction ms generalizing i s with
  | nil => simp [linesLoop, slept, sleeps]
  | cons m ms ih =>
    have h1 := retryLoop_slept_le env (matchStringTest m
      ("Unexpected content in view '" ++ viewName ++ "'.") (bufferLineAt env viewName i))
      waitTimes "" s
    have h2 := andThen_slept_le (matchString env m
      ("Unexpected content in view '" ++ viewName ++ "'.") (bufferLineAt env viewName i) s)
      (linesLoop env viewName ms (i + 1)) (ms.length * waitTimes.sum) (fun w => ih (i + 1) w)
    have h3 : (ms.length + 1) * waitTimes.sum = waitTimes.sum + ms.length * waitTimes.sum := by
      rw [Nat.add_mul, Nat.one_mul, Nat.add_comm]
    simp only [linesLoop, List.length_cons, h3]
    unfold matchString assertWithRetries at h2
    unfold matchString assertWithRetries
    omega

/-- A check followed by the loop over `n` matchers sleeps at most `n + 1`
times the sum of the schedule. -/
theorem checkedLinesLoop_slept_le (env : Env σ) (viewName : String) (ms : List matcher)
    (test : σ → ProbeOut) (s : σ) :
    slept ((assertWithRetries env test s).andThen (linesLoop env viewName ms 0)).trace ≤
      (ms.length + 1) * waitTimes.sum := by
  have h1 := retryLoop_slept_le env test waitTimes "" s
  have h2 := andThen_slept_le (assertWithRetries env test s) (linesLoop env viewName ms 0)
    (ms.length * waitTimes.sum) (fun w => linesLoop_slept_le env viewName ms 0 w)
  have h3 : (ms.length + 1) * waitTimes.sum = waitTimes.sum + ms.length * waitTimes.sum := by
    rw [Nat.add_mul, Nat.one_mul, Nat.add_comm]
  rw [h3]
  unfold assertWithRetries at h2
  unfold assertWithRetries
  omega

end SleptLemmas

/-! ## Lemmas on a view that becomes ready at the last evaluation -/

section LastEvaluationLemmas

/-- On a clock whose sleeps take exactly their duration, the sixteen
evaluations are made 0, 1, 2, 3, 4, 5, 10, 20, 40, 80, 180, 380, 880, 1880,
3880 and 7880 ms after the start. -/
theorem evalWorlds_clock (env : Env Nat) (hsleep : ∀ d t, env.Sleep d t = t + d) (s : Nat) :
    evalWorlds env waitTimes s =
      [s, s + 1, s + 2, s + 3, s + 4, s + 5, s + 10, s + 20, s + 40, s + 80, s + 180, s + 380,
        s + 880, s + 1880, s + 3880] ++ (s + 7880) :: [] := by
  simp [evalWorlds, waitTimes, hsleep, Nat.add_assoc]

/-- On such a clock a probe that fails until 7880 ms after the start and
passes then makes the call sleep the whole schedule and return. -/
theorem assertWithRetries_passes_last (env : Env Nat) (hsleep : ∀ d t, env.Sleep d t = t + d)
    (test : Nat → ProbeOut) (s : Nat) (message : String)
    (hearly : ∀ t, s ≤ t → t < s + 7880 → ∃ m, (test t).result = some (false, m))
    (hlate : (test (s + 7880)).result = some (true, message)) :
    slept (assertWithRetries env test s).trace = 7880 ∧
      (assertWithRetries env test s).outcome = .returned ∧
      failures (assertWithRetries env test s).trace = [] ∧
      (assertWithRetries env test s).world = s + 7880 := by
  obtain ⟨h1, _, h3, h4, h5⟩ := retryLoop_firstPass env test _ (s + 7880) [] message waitTimes ""
    s (evalWorlds_clock env hsleep s)
    (fun v hv => by
      simp only [List.mem_cons, List.mem_singleton, List.not_mem_nil, or_false] at hv
      exact hearly v (by omega) (by omega))
    hlate
  refine ⟨?_, h4, h3, h5⟩
  unfold slept assertWithRetries
  rw [h1]
  simp only [List.length_cons, List.length_nil]
  decide

theorem slowEnv_line (N i t : Nat) (hi : i < N) (ht : 7880 ≤ t) :
    ((slowEnv N).View t "files").BufferLines.get? i =
      some (if (i + 2) * 7880 ≤ t then "ready" else "wait") := by
  simp [slowEnv, Nat.not_lt.mpr ht, List.getElem?_range hi]

theorem slowEnv_length (N t : Nat) :
    ((slowEnv N).View t "files").BufferLines.length = if t < 7880 then 0 else N := by
  simp only [slowEnv]
  split <;> simp

/-- On the slowly filling view the loop over `k` remaining matchers, entered
when the line at its index has just come into its waiting state, sleeps the
whole schedule for each of them. -/
theorem linesLoop_slowEnv (N k i : Nat) (hk : i + k = N) :
    slept (linesLoop (slowEnv N) "files" (List.replicate k (Equals "ready")) i
        ((i + 1) * 7880)).trace = k * 7880 ∧
      (linesLoop (slowEnv N) "files" (List.replicate k (Equals "ready")) i
        ((i + 1) * 7880)).outcome = .returned := by
  induction k generalizing i with
  | zero => simp [linesLoop, slept, sleeps]
  | succ k ih =>
    have hi : i < N := by omega
    obtain ⟨h1, h2, _, h4⟩ := assertWithRetries_passes_last (slowEnv N) (fun _ _ => rfl)
      (matchStringTest (Equals "ready") ("Unexpected content in view '" ++ "files" ++ "'.")
        (bufferLineAt (slowEnv N) "files" i))
      ((i + 1) * 7880)
      ("Unexpected content in view '" ++ "files" ++ "'." ++ " " ++
        ((Equals "ready").testFn "ready").2)
      (fun t h1 h2 => ⟨_, by
        rw [matchStringTest_line (slowEnv N) (Equals "ready") _ "files" i t "wait"
          (by
            rw [slowEnv_line N i t hi (by omega), if_neg]
            have : (i + 2) * 7880 = (i + 1) * 7880 + 7880 := by ring
            omega)]
        rfl⟩)
      (by
        rw [matchStringTest_line (slowEnv N) (Equals "ready") _ "files" i _ "ready"
          (by
            rw [slowEnv_line N i _ hi (by omega), if_pos]
            have : (i + 2) * 7880 = (i + 1) * 7880 + 7880 := by ring
            omega)]
        rfl)
    have hnext : (i + 1) * 7880 + 7880 = (i + 1 + 1) * 7880 := by ring
    obtain ⟨j1, j2⟩ := ih (i + 1) (by omega)
    simp only [List.replicate_succ, linesLoop]
    unfold matchString
    rw [andThen_of_returned _ _ h2, h4, hnext]
    simp only [after_trace, after_outcome, slept_append, h1, j1, j2, and_true]
    ring

/-- On the slowly filling view a line-count check that fails before 7880 ms
and passes then, followed by the loop over `N` matchers `Equals("ready")`,
sleeps `N + 1` times the sum of the schedule. -/
theorem checkedLinesLoop_slowEnv (N : Nat) (test : Nat → ProbeOut) (message : String)
    (hearly : ∀ t, t < 7880 → ∃ m, (test t).result = some (false, m))
    (hlate : (test 7880).result = some (true, message)) :
    slept ((assertWithRetries (slowEnv N) test 0).andThen
        (linesLoop (slowEnv N) "files" (List.replicate N (Equals "ready")) 0)).trace =
      (N + 1) * waitTimes.sum := by
  obtain ⟨h1, h2, _, h4⟩ := assertWithRetries_passes_last (slowEnv N) (fun _ _ => rfl) test 0
    message (fun t _ ht => hearly t (by omega)) (by simpa using hlate)
  obtain ⟨j1, _⟩ := linesLoop_slowEnv N N 0 (by omega)
  have hsum : waitTimes.sum = 7880 := by decide
  rw [andThen_of_returned _ _ h2, after_trace, slept_append, h1, h4, hsum]
  simp only [Nat.zero_add, Nat.one_mul] at j1 ⊢
  rw [j1]
  ring

end LastEvaluationLemmas

/-! ## Theorems -/

/-- C1: a probe that returns pass=false on every evaluation is evaluated
exactly 16 times (the length of the schedule), the call sleeps the schedule
entries in order, in total their sum, and the failure sink is invoked exactly
once, with the message of the 16th evaluation, the one made in the world
reached after all sixteen sleeps. -/
theorem assertWithRetries_neverPasses {σ : Type} (env : Env σ) (test : σ → ProbeOut) (s : σ)
    (h : NeverPasses test) :
    ∃ message,
      (test (worldAfter env waitTimes s)).result = some (false, message) ∧
      (evals (assertWithRetries env test s).trace).length = 16 ∧
      waitTimes.length = 16 ∧
      (∀ e ∈ evals (assertWithRetries env test s).trace, e.1 = false) ∧
      (evals (assertWithRetries env test s).trace).get? 15 = some (false, message) ∧
      sleeps (assertWithRetries env test s).trace = waitTimes ∧
      slept (assertWithRetries env test s).trace = waitTimes.sum ∧
      failures (assertWithRetries env test s).trace = [message] ∧
      (assertWithRetries env test s).outcome = .failed message := by
  obtain ⟨message, hm⟩ := h (worldAfter env waitTimes s)
  obtain ⟨hs, he, hf⟩ := retryLoop_neverPasses_measures env test h waitTimes "" s
  obtain ⟨_, ho, _⟩ := retryLoop_neverPasses env test h waitTimes "" s
  have hmsg := messageAt_of_result test _ _ _ hm
  rw [lastMessage_waitTimes, hmsg] at hf ho
  have hlen : (evals (assertWithRetries env test s).trace).length = 16 := by
    unfold assertWithRetries
    rw [he]
    simp [waitTimes]
  refine ⟨message, hm, hlen, rfl, ?_, ?_, hs, ?_, hf, ho⟩
  · intro e hmem
    unfold assertWithRetries at hmem
    rw [he] at hmem
    obtain ⟨w, _, rfl⟩ := List.mem_map.mp hmem
    rfl
  · have hlast : (evals (assertWithRetries env test s).trace).getLast? = some (false, message) := by
      unfold assertWithRetries
      rw [he, List.getLast?_map]
      have h0 := evalWorlds_getLast env 0
        [1, 1, 1, 1, 1, 5, 10, 20, 40, 100, 200, 500, 1000, 2000, 4000] s
      have hw : waitTimes =
          0 :: [1, 1, 1, 1, 1, 5, 10, 20, 40, 100, 200, 500, 1000, 2000, 4000] := rfl
      rw [hw, h0, ← hw]
      simp [hmsg]
    rw [List.getLast?_eq_getElem?, hlen] at hlast
    simpa using hlast
  · unfold slept assertWithRetries
    rw [hs]

/-- Witness of C1 on a clock: the failure sink gets the message of the
evaluation at 7880 ms. -/
theorem assertWithRetries_neverPasses_witness :
    NeverPasses waitedTest ∧
    failures (assertWithRetries (clockEnv 0) waitedTest 0).trace = ["waited 7880"] ∧
    ∃ message,
      (waitedTest (worldAfter (clockEnv 0) waitTimes 0)).result = some (false, message) ∧
      (evals (assertWithRetries (clockEnv 0) waitedTest 0).trace).length = 16 ∧
      waitTimes.length = 16 ∧
      (∀ e ∈ evals (assertWithRetries (clockEnv 0) waitedTest 0).trace, e.1 = false) ∧
      (evals (assertWithRetries (clockEnv 0) waitedTest 0).trace).get? 15 =
        some (false, message) ∧
      sleeps (assertWithRetries (clockEnv 0) waitedTest 0).trace = waitTimes ∧
      slept (assertWithRetries (clockEnv 0) waitedTest 0).trace = waitTimes.sum ∧
      failures (assertWithRetries (clockEnv 0) waitedTest 0).trace = [message] ∧
      (assertWithRetries (clockEnv 0) waitedTest 0).outcome = .failed message :=
  ⟨fun _ => ⟨_, rfl⟩, by decide,
    assertWithRetries_neverPasses (clockEnv 0) waitedTest 0 (fun _ => ⟨_, rfl⟩)⟩

/-- C2: when the probe returns pass=true on its first evaluation, the one
made after the sleep of the first schedule entry (0 ms), the call returns
after exactly that one evaluation, having slept once, for 0 ms, and without
invoking the failure sink. -/
theorem assertWithRetries_passesFirst {σ : Type} (env : Env σ) (test : σ → ProbeOut) (s : σ)
    (message : String) (h : (test (env.Sleep 0 s)).result = some (true, message)) :
    evals (assertWithRetries env test s).trace = [(true, message)] ∧
      sleeps (assertWithRetries env test s).trace = [0] ∧
      waitTimes.head? = some 0 ∧
      slept (assertWithRetries env test s).trace = 0 ∧
      failures (assertWithRetries env test s).trace = [] ∧
      (assertWithRetries env test s).outcome = .returned := by
  have hrun := retryLoop_cons_true env test 0
    [1, 1, 1, 1, 1, 5, 10, 20, 40, 100, 200, 500, 1000, 2000, 4000] "" message s h
  have hw : assertWithRetries env test s = retryLoop env test
      (0 :: [1, 1, 1, 1, 1, 5, 10, 20, 40, 100, 200, 500, 1000, 2000, 4000]) "" s := rfl
  rw [hw, hrun]
  simp [evals, sleeps, failures, slept, waitTimes]

/-- Witness of C2 on a clock with a probe that always passes. -/
theorem assertWithRetries_passesFirst_witness :
    (readyTest ((clockEnv 0).Sleep 0 0)).result = some (true, "ready at 0") ∧
    evals (assertWithRetries (clockEnv 0) readyTest 0).trace = [(true, "ready at 0")] ∧
      sleeps (assertWithRetries (clockEnv 0) readyTest 0).trace = [0] ∧
      waitTimes.head? = some 0 ∧
      slept (assertWithRetries (clockEnv 0) readyTest 0).trace = 0 ∧
      failures (assertWithRetries (clockEnv 0) readyTest 0).trace = [] ∧
      (assertWithRetries (clockEnv 0) readyTest 0).outcome = .returned :=
  ⟨by decide, assertWithRetries_passesFirst (clockEnv 0) readyTest 0 "ready at 0" (by decide)⟩

/-- C3 as stated fails: the sixteen entries of the schedule add up to 7880 ms,
which is not 8870 to the nearest 10 ms, and so does the time slept by a call
whose probe never passes. -/
theorem waitTimes_sum_counterexample :
    ¬ (roundToTen waitTimes.sum = 8870) ∧
      ¬ (roundToTen (slept (assertWithRetries (clockEnv 0) waitedTest 0).trace) = 8870) := by
  decide

/-- C3, amended: the sixteen entries of the retry schedule add up to 7880 ms
(7.88 seconds), and that is the time slept by a call whose probe never
passes. -/
theorem waitTimes_sum {σ : Type} (env : Env σ) (test : σ → ProbeOut) (s : σ)
    (h : NeverPasses test) :
    waitTimes = [0, 1, 1, 1, 1, 1, 5, 10, 20, 40, 100, 200, 500, 1000, 2000, 4000] ∧
      waitTimes.length = 16 ∧
      waitTimes.sum = 7880 ∧
      slept (assertWithRetries env test s).trace = 7880 := by
  obtain ⟨hs, _, _⟩ := retryLoop_neverPasses_measures env test h waitTimes "" s
  refine ⟨rfl, rfl, by decide, ?_⟩
  unfold slept assertWithRetries
  rw [hs]
  decide

/-- Witness of the amended C3 on a clock. -/
theorem waitTimes_sum_witness :
    NeverPasses waitedTest ∧
    waitTimes = [0, 1, 1, 1, 1, 1, 5, 10, 20, 40, 100, 200, 500, 1000, 2000, 4000] ∧
      waitTimes.length = 16 ∧
      waitTimes.sum = 7880 ∧
      slept (assertWithRetries (clockEnv 0) waitedTest 0).trace = 7880 :=
  ⟨fun _ => ⟨_, rfl⟩, waitTimes_sum (clockEnv 0) waitedTest 0 (fun _ => ⟨_, rfl⟩)⟩

/-- C4 as stated fails: a call whose probe never passes starts with a sleep,
not with an evaluation, and makes as many sleeps as evaluations, sixteen of
each, so the evaluations are not one more than the sleeps. -/
theorem evaluations_vs_sleeps_counterexample :
    NeverPasses waitedTest ∧
      (assertWithRetries (clockEnv 0) waitedTest 0).trace.head? = some (.sleep 0) ∧
      (sleeps (assertWithRetries (clockEnv 0) waitedTest 0).trace).length = 16 ∧
      ¬ ((evals (assertWithRetries (clockEnv 0) waitedTest 0).trace).length =
          (sleeps (assertWithRetries (clockEnv 0) waitedTest 0).trace).length + 1) :=
  ⟨fun _ => ⟨_, rfl⟩, by decide, by decide, by decide⟩

/-- C4, amended: in a call whose probe never passes every evaluation comes
right after the sleep of its schedule entry, the first after a sleep of 0 ms:
the engine's effects are sleep, evaluation, sleep, evaluation, ... and then
the failure sink. There are 16 evaluations and 16 sleeps, so the evaluations
are exactly one more than the 15 sleeps of non-zero duration. -/
theorem evaluations_vs_sleeps {σ : Type} (env : Env σ) (test : σ → ProbeOut) (s : σ)
    (h : NeverPasses test) :
    engineEvents (assertWithRetries env test s).trace =
        failedRounds waitTimes ((evalWorlds env waitTimes s).map (messageAt test)) ++
          [.fail (messageAt test (worldAfter env waitTimes s))] ∧
      (evals (assertWithRetries env test s).trace).length = 16 ∧
      (sleeps (assertWithRetries env test s).trace).length = 16 ∧
      ((sleeps (assertWithRetries env test s).trace).filter (fun d => decide (0 < d))).length
        = 15 ∧
      (evals (assertWithRetries env test s).trace).length =
        ((sleeps (assertWithRetries env test s).trace).filter (fun d => decide (0 < d))).length
          + 1 := by
  obtain ⟨hs, he, _⟩ := retryLoop_neverPasses_measures env test h waitTimes "" s
  obtain ⟨ht, _, _⟩ := retryLoop_neverPasses env test h waitTimes "" s
  rw [lastMessage_waitTimes] at ht
  have hlen : (evals (assertWithRetries env test s).trace).length = 16 := by
    unfold assertWithRetries
    rw [he]
    simp [waitTimes]
  have hsl : sleeps (assertWithRetries env test s).trace = waitTimes := hs
  refine ⟨ht, hlen, ?_, ?_, ?_⟩
  · rw [hsl]; rfl
  · rw [hsl]; decide
  · rw [hlen, hsl]; decide

/-- Witness of the amended C4 on a clock. -/
theorem evaluations_vs_sleeps_witness :
    NeverPasses waitedTest ∧
    (evals (assertWithRetries (clockEnv 0) waitedTest 0).trace).length =
      ((sleeps (assertWithRetries (clockEnv 0) waitedTest 0).trace).filter
        (fun d => decide (0 < d))).length + 1 :=
  ⟨fun _ => ⟨_, rfl⟩,
    (evaluations_vs_sleeps (clockEnv 0) waitedTest 0 (fun _ => ⟨_, rfl⟩)).2.2.2.2⟩

/-- C5 as stated fails: when `os.Stat` fails with an error other than
not-exist, the probe of `FileSystemPathPresent` fails and so does the probe of
`FileSystemPathNotPresent`. -/
theorem fileSystemPath_complement_counterexample :
    ¬ ((fileSystemPathNotPresentTest "repo/file" (.other "permission denied")).1 = true ↔
        (fileSystemPathPresentTest "repo/file" (.other "permission denied")).1 = false) := by
  decide

/-- C5, amended: when `os.Stat` succeeds the probe of `FileSystemPathPresent`
passes and that of `FileSystemPathNotPresent` fails; on a not-exist error it
is the other way round; on any other error both probes fail. -/
theorem fileSystemPath_probes (path : String) (err : StatErr) :
    match err with
    | .nil =>
        (fileSystemPathPresentTest path err).1 = true ∧
          (fileSystemPathNotPresentTest path err).1 = false
    | .notExist =>
        (fileSystemPathPresentTest path err).1 = false ∧
          (fileSystemPathNotPresentTest path err).1 = true
    | .other _ =>
        (fileSystemPathPresentTest path err).1 = false ∧
          (fileSystemPathNotPresentTest path err).1 = false := by
  cases err <;> simp [fileSystemPathPresentTest, fileSystemPathNotPresentTest, IsNotExist]

/-- C8: for distinct strings `a` and `b` the matcher `Equals(a)` passes on `a`
and fails on `b`, and its diagnostic on `b` contains both `a` and `b`. -/
theorem Equals_distinct (a b : String) (h : a ≠ b) :
    ((Equals a).test a).1 = true ∧
      ((Equals a).test b).1 = false ∧
      (Equals a).test b = (Equals a).testFn b ∧
      Occurs a ((Equals a).test b).2 ∧
      Occurs b ((Equals a).test b).2 := by
  refine ⟨by simp [Equals, NewMatcher, matcher.test], by simp [Equals, NewMatcher, matcher.test, h],
    rfl, ?_, ?_⟩
  · exact occurs_mid ("Expected '" ++ b ++ "' to equal '") a "'"
  · exact occurs_append_right _ _ _ (occurs_append_right _ _ _
      (occurs_append_right _ _ _ (occurs_end "Expected '" b)))

/-- Witness of C8 at the strings `foo` and `bar`. -/
theorem Equals_distinct_witness :
    "foo" ≠ "bar" ∧
    ((Equals "foo").test "foo").1 = true ∧
      ((Equals "foo").test "bar").1 = false ∧
      (Equals "foo").test "bar" = (Equals "foo").testFn "bar" ∧
      Occurs "foo" ((Equals "foo").test "bar").2 ∧
      Occurs "bar" ((Equals "foo").test "bar").2 :=
  ⟨by decide, Equals_distinct "foo" "bar" (by decide)⟩

/-- C9: on every value the pass flag of `Contains(t)` is the negation of the
pass flag of `NotContains(t)`, and `Contains(t)` passes exactly when `t`
occurs in the value. -/
theorem Contains_NotContains (t v : String) :
    ((Contains t).testFn v).1 = !((NotContains t).testFn v).1 ∧
      ((NotContains t).testFn v).1 = !((Contains t).testFn v).1 ∧
      (((Contains t).testFn v).1 = true ↔ Occurs t v) ∧
      (Contains t).test v = (Contains t).testFn v ∧
      (NotContains t).test v = (NotContains t).testFn v := by
  refine ⟨by simp [Contains, NotContains, NewMatcher], by simp [Contains, NotContains, NewMatcher],
    ?_, rfl, rfl⟩
  exact stringsContains_iff_occurs v t

/-- C10 as stated fails: when the pattern does not compile, the diagnostic of
`MatchesRegexp` names the pattern and the parse error but not the value. -/
theorem diagnostics_counterexample :
    (MatchesRegexp sampleRegexp "(").testFn "hello" =
        (false, "Unexpected error parsing regular expression '(': " ++
          "error parsing regexp: missing closing ): `(`") ∧
      ¬ Occurs "hello" ((MatchesRegexp sampleRegexp "(").testFn "hello").2 := by
  refine ⟨by decide, ?_⟩
  rw [← stringsContains_iff_occurs]
  decide

/-- C10, amended: the diagnostics of `Contains`, `NotContains` and `Equals`
contain the target and the value; the diagnostic of `MatchesRegexp` contains
the target, and it contains the value when the pattern compiles and the text
of the parse error when it does not. -/
theorem diagnostics_name_target_and_value (rx : RegexpLib) (target value : String) :
    (Occurs target ((Contains target).testFn value).2 ∧
        Occurs value ((Contains target).testFn value).2) ∧
      (Occurs target ((NotContains target).testFn value).2 ∧
        Occurs value ((NotContains target).testFn value).2) ∧
      (Occurs target ((Equals target).testFn value).2 ∧
        Occurs value ((Equals target).testFn value).2) ∧
      Occurs target ((MatchesRegexp rx target).testFn value).2 ∧
      (match rx target with
        | .ok _ => Occurs value ((MatchesRegexp rx target).testFn value).2
        | .error err => Occurs err ((MatchesRegexp rx target).testFn value).2) := by
  refine ⟨⟨?_, ?_⟩, ⟨?_, ?_⟩, ⟨?_, ?_⟩, ?_, ?_⟩
  · exact occurs_append_right _ _ _ (occurs_append_right _ _ _
      (occurs_append_right _ _ _ (occurs_end "Expected '" target)))
  · exact occurs_mid ("Expected '" ++ target ++ "' to be found in '") value "'"
  · exact occurs_append_right _ _ _ (occurs_append_right _ _ _
      (occurs_append_right _ _ _ (occurs_end "Expected '" target)))
  · exact occurs_mid ("Expected '" ++ target ++ "' to NOT be found in '") value "'"
  · exact occurs_mid ("Expected '" ++ value ++ "' to equal '") target "'"
  · exact occurs_append_right _ _ _ (occurs_append_right _ _ _
      (occurs_append_right _ _ _ (occurs_end "Expected '" value)))
  · cases hrx : rx target with
    | error err =>
      simp only [MatchesRegexp, NewMatcher, regexpMatchString, hrx]
      exact occurs_append_right _ _ _ (occurs_append_right _ _ _
        (occurs_end "Unexpected error parsing regular expression '" target))
    | ok re =>
      simp only [MatchesRegexp, NewMatcher, regexpMatchString, hrx]
      exact occurs_mid ("Expected '" ++ value ++ "' to match regular expression '") target "'"
  · cases hrx : rx target with
    | error err =>
      simp only [MatchesRegexp, NewMatcher, regexpMatchString, hrx]
      exact occurs_end _ err
    | ok re =>
      simp only [MatchesRegexp, NewMatcher, regexpMatchString, hrx]
      exact occurs_append_right _ _ _ (occurs_append_right _ _ _
        (occurs_append_right _ _ _ (occurs_end "Expected '" value)))

/-- C6: against a view that has exactly 2 lines at every read, `ViewLines`
with three matchers is the failing line-count check and nothing more: all 16
evaluations are those of the count check, the failure sink gets its message,
and the call makes no indexed read of a line and applies no matcher. -/
theorem ViewLines_count_mismatch {σ : Type} (env : Env σ) (viewName : String)
    (m1 m2 m3 : matcher) (s : σ)
    (h : ∀ w, (env.View w viewName).BufferLines.length = 2) :
    ViewLines env viewName [m1, m2, m3] s =
        assertWithRetries env (viewLinesCountTest env viewName 3) s ∧
      (ViewLines env viewName [m1, m2, m3] s).outcome =
        .failed "unexpected number of lines in view. Expected 3, got 2" ∧
      failures (ViewLines env viewName [m1, m2, m3] s).trace =
        ["unexpected number of lines in view. Expected 3, got 2"] ∧
      evals (ViewLines env viewName [m1, m2, m3] s).trace =
        List.replicate 16 (false, "unexpected number of lines in view. Expected 3, got 2") ∧
      accesses (ViewLines env viewName [m1, m2, m3] s).trace = [] := by
  have hres : ∀ w, (viewLinesCountTest env viewName 3 w).result =
      some (false, "unexpected number of lines in view. Expected 3, got 2") := by
    intro w
    simp only [viewLinesCountTest, pureProbe, h w]
    rfl
  have hnever : NeverPasses (viewLinesCountTest env viewName 3) := fun w => ⟨_, hres w⟩
  have hmsg : ∀ w, messageAt (viewLinesCountTest env viewName 3) w =
      "unexpected number of lines in view. Expected 3, got 2" :=
    fun w => messageAt_of_result _ _ _ _ (hres w)
  obtain ⟨_, he, hf⟩ :=
    retryLoop_neverPasses_measures env (viewLinesCountTest env viewName 3) hnever waitTimes "" s
  obtain ⟨_, ho, _⟩ :=
    retryLoop_neverPasses env (viewLinesCountTest env viewName 3) hnever waitTimes "" s
  rw [lastMessage_waitTimes, hmsg] at hf ho
  have hacc := retryLoop_accesses_nil env (viewLinesCountTest env viewName 3)
    (fun _ => rfl) waitTimes "" s
  have hrun : ViewLines env viewName [m1, m2, m3] s =
      assertWithRetries env (viewLinesCountTest env viewName 3) s :=
    andThen_of_failed _ _ _ ho
  rw [hrun]
  refine ⟨rfl, ho, hf, ?_, hacc⟩
  unfold assertWithRetries
  rw [he]
  simp only [hmsg, List.map_const', evalWorlds_length]
  rfl

/-- Witness of C6: three matchers against the two lines of a clock world
whose view never leaves its first state. -/
theorem ViewLines_count_mismatch_witness :
    (∀ w, (((clockEnv 0).View w "files").BufferLines).length = 2) ∧
    failures (ViewLines (clockEnv 0) "files" [Contains "a", Contains "b", Equals "c"] 0).trace =
      ["unexpected number of lines in view. Expected 3, got 2"] ∧
    accesses (ViewLines (clockEnv 0) "files" [Contains "a", Contains "b", Equals "c"] 0).trace
      = [] :=
  ⟨fun _ => rfl,
    (ViewLines_count_mismatch (clockEnv 0) "files" (Contains "a") (Contains "b") (Equals "c") 0
      (fun _ => rfl)).2.2.1,
    (ViewLines_count_mismatch (clockEnv 0) "files" (Contains "a") (Contains "b") (Equals "c") 0
      (fun _ => rfl)).2.2.2.2⟩

/-- C7: on a world with a clock that a sleep of `d` ms advances by at least
`d`, against a view whose lines are `["x", "y"]` before the instant `T` and
`["a-line", "b-line"]` from `T` on, with `T` less than the sum of the schedule
after the start of the call, `ViewLines(view, Contains("a"), Contains("b"))`
returns and never invokes the failure sink. -/
theorem ViewLines_eventually {σ : Type} (env : Env σ) (now : σ → Nat) (viewName : String)
    (T : Nat) (s : σ)
    (hsleep : ∀ d w, now w + d ≤ now (env.Sleep d w))
    (hview : ∀ w, (env.View w viewName).BufferLines =
      if now w < T then ["x", "y"] else ["a-line", "b-line"])
    (hT : T < now s + waitTimes.sum) :
    (ViewLines env viewName [Contains "a", Contains "b"] s).outcome = .returned ∧
      failures (ViewLines env viewName [Contains "a", Contains "b"] s).trace = [] := by
  have hlen : ∀ w, (env.View w viewName).BufferLines.length = 2 := by
    intro w
    rw [hview w]
    split <;> rfl
  -- the line-count check passes at its first evaluation
  obtain ⟨hc1, hc2, _, hc4⟩ :=
    assertWithRetries_passes_by env (viewLinesCountTest env viewName 2) now 0 hsleep
      (fun w _ => ⟨"unexpected number of lines in view. Expected 2, got 2", by
        simp only [viewLinesCountTest, pureProbe, hlen w]
        rfl⟩)
      (fun w hw => absurd hw (Nat.not_lt_zero _)) s (Nat.zero_le _)
  -- the first line passes once the clock has reached `T`
  have hline0 := fun w0 (h0 : T ≤ now w0 + waitTimes.sum) =>
    assertWithRetries_passes_by env
      (matchStringTest (Contains "a") ("Unexpected content in view '" ++ viewName ++ "'.")
        (bufferLineAt env viewName 0))
      now T hsleep
      (fun w hw => ⟨_, by
        rw [matchStringTest_line env (Contains "a") _ viewName 0 w "a-line"
          (by simp [hview w, Nat.not_lt.mpr hw])]
        rfl⟩)
      (fun w hw => ⟨_, by
        rw [matchStringTest_line env (Contains "a") _ viewName 0 w "x" (by simp [hview w, hw])]
        rfl⟩)
      w0 h0
  -- the second line passes at once after that
  have hline1 := fun w1 (h1 : T ≤ now w1 + waitTimes.sum) =>
    assertWithRetries_passes_by env
      (matchStringTest (Contains "b") ("Unexpected content in view '" ++ viewName ++ "'.")
        (bufferLineAt env viewName 1))
      now T hsleep
      (fun w hw => ⟨_, by
        rw [matchStringTest_line env (Contains "b") _ viewName 1 w "b-line"
          (by simp [hview w, Nat.not_lt.mpr hw])]
        rfl⟩)
      (fun w hw => ⟨_, by
        rw [matchStringTest_line env (Contains "b") _ viewName 1 w "y" (by simp [hview w, hw])]
        rfl⟩)
      w1 h1
  obtain ⟨ha1, ha2, ha3, _⟩ :=
    hline0 (assertWithRetries env (viewLinesCountTest env viewName 2) s).world (by omega)
  obtain ⟨hb1, hb2, _, _⟩ := hline1 _ (Nat.le_trans ha3 (Nat.le_add_right _ _))
  have hrest := andThen_returned_clean _
    (linesLoop env viewName [] 2) hb1 hb2 rfl rfl
  have hloop := andThen_returned_clean _
    (linesLoop env viewName [Contains "b"] 1) ha1 ha2 hrest.1 hrest.2.1
  have hall := andThen_returned_clean _
    (linesLoop env viewName [Contains "a", Contains "b"] 0) hc1 hc2 hloop.1 hloop.2.1
  exact ⟨hall.1, hall.2.1⟩

/-- Witness of C7: on a clock whose view changes 5 seconds after the start,
the call returns, after 7880 ms and with no failure. -/
theorem ViewLines_eventually_witness :
    (∀ d w, id w + d ≤ id ((clockEnv 5000).Sleep d w)) ∧
    5000 < id 0 + waitTimes.sum ∧
    (ViewLines (clockEnv 5000) "files" [Contains "a", Contains "b"] 0).outcome = .returned ∧
      failures (ViewLines (clockEnv 5000) "files" [Contains "a", Contains "b"] 0).trace = [] :=
  ⟨fun _ _ => Nat.le_refl _, by decide,
    ViewLines_eventually (clockEnv 5000) id "files" 5000 0 (fun _ _ => Nat.le_refl _)
      (fun _ => rfl) (by decide)⟩

/-- C11: when the pattern does not compile, the predicate of
`MatchesRegexp(pattern)` returns on every value, with pass=false and a
diagnostic that contains the text of the compile error; a `matchString` on it
therefore fails every evaluation and ends, without a panic, in the failure
sink, with a message that contains the error. -/
theorem MatchesRegexp_compileError {σ : Type} (rx : RegexpLib) (target err : String)
    (h : rx target = .error err) (value : String) (env : Env σ) (context : String)
    (getValue : σ → String) (s : σ) :
    (MatchesRegexp rx target).testFn value =
        (false, "Unexpected error parsing regular expression '" ++ target ++ "': " ++ err) ∧
      ((MatchesRegexp rx target).test value).1 = false ∧
      Occurs err ((MatchesRegexp rx target).test value).2 ∧
      NeverPasses (matchStringTest (MatchesRegexp rx target) context
        (fun w => ([], some (getValue w)))) ∧
      ∃ message,
        (matchString env (MatchesRegexp rx target) context
          (fun w => ([], some (getValue w))) s).outcome = .failed message ∧
        Occurs err message := by
  have hfn : ∀ v, (MatchesRegexp rx target).testFn v =
      (false, "Unexpected error parsing regular expression '" ++ target ++ "': " ++ err) := by
    intro v
    simp only [MatchesRegexp, NewMatcher, regexpMatchString, h]
  have hres : ∀ w, (matchStringTest (MatchesRegexp rx target) context
      (fun w => ([], some (getValue w))) w).result =
      some (false, context ++ " " ++
        ("Unexpected error parsing regular expression '" ++ target ++ "': " ++ err)) := by
    intro w
    simp only [matchStringTest, matcher.context, matcher.test, hfn]
  have hnever : NeverPasses (matchStringTest (MatchesRegexp rx target) context
      (fun w => ([], some (getValue w)))) := fun w => ⟨_, hres w⟩
  obtain ⟨_, ho, _⟩ := retryLoop_neverPasses env _ hnever waitTimes "" s
  rw [lastMessage_waitTimes, messageAt_of_result _ _ _ _ (hres _)] at ho
  refine ⟨hfn value, ?_, ?_, hnever, _, ho, ?_⟩
  · simp [matcher.test, hfn]
  · simp only [matcher.test, hfn]
    exact occurs_end _ err
  · exact occurs_append_left _ _ _ (occurs_end _ err)

/-- Witness of C11: the pattern `(` against the value `hello`, read by a probe
on a clock. -/
theorem MatchesRegexp_compileError_witness :
    sampleRegexp "(" = .error "error parsing regexp: missing closing ): `(`" ∧
    (MatchesRegexp sampleRegexp "(").testFn "hello" =
      (false, "Unexpected error parsing regular expression '" ++ "(" ++ "': " ++
        "error parsing regexp: missing closing ): `(`") :=
  ⟨rfl, (MatchesRegexp_compileError sampleRegexp "(" "error parsing regexp: missing closing ): `(`"
    rfl "hello" (clockEnv 0) "Unexpected selected line." (fun _ => "hello") 0).1⟩

/-- C12: a matcher with a context label yields on every value the pass flag
of the matcher without it, which is left as it was, and when that flag is
false the diagnostic contains the label; the probe of `matchString` returns
this result for the value that `getValue` reads. -/
theorem context_keeps_flag {σ : Type} (m : matcher) (label v : String)
    (getValue : σ → List Access × Option String) (w : σ) (reads : List Access)
    (hread : getValue w = (reads, some v)) :
    ((m.context label).test v).1 = (m.test v).1 ∧
      (((m.context label).test v).1 = false → Occurs label ((m.context label).test v).2) ∧
      Occurs (m.test v).2 ((m.context label).test v).2 ∧
      (matchStringTest m label getValue w).result = some ((m.context label).test v) := by
  refine ⟨rfl, fun _ => ?_, ?_, ?_⟩
  · exact occurs_append_right _ _ _ (occurs_append_right _ _ _ ⟨"", "", by simp⟩)
  · exact occurs_end _ _
  · simp only [matchStringTest, hread]

/-- Witness of C12: `Equals("foo")` with the label of `SelectedLine` on the
value `bar` fails and names the label. -/
theorem context_keeps_flag_witness :
    (((Equals "foo").context "Unexpected selected line.").test "bar").1 = false ∧
    Occurs "Unexpected selected line."
      (((Equals "foo").context "Unexpected selected line.").test "bar").2 :=
  ⟨by decide,
    (context_keeps_flag (Equals "foo") "Unexpected selected line." "bar"
      (fun (_ : Nat) => ([], some "bar")) 0 [] rfl).2.1 (by decide)⟩

/-- C17: on every focused view the probes of `InAlert` and `InConfirm` return
the same pass flag, which is true exactly when the view is named
`confirmation` and is not editable; the two assertions sleep, evaluate and
end alike from every world, and differ in their diagnostics only. -/
theorem InAlert_InConfirm {σ : Type} (currentView : GocuiView) (env : Env σ) (s : σ) :
    (inAlertTest currentView).1 = (inConfirmTest currentView).1 ∧
      ((inConfirmTest currentView).1 = true ↔
        currentView.Name = "confirmation" ∧ currentView.Editable = false) ∧
      ((inAlertTest currentView).1 = true ↔
        currentView.Name = "confirmation" ∧ currentView.Editable = false) ∧
      (inAlertTest currentView).2 = "Expected alert popup to be focused" ∧
      (inConfirmTest currentView).2 = "Expected confirmation popup to be focused" ∧
      sleeps (assertOnCurrentView env inAlertTest s).trace =
        sleeps (assertOnCurrentView env inConfirmTest s).trace ∧
      (evals (assertOnCurrentView env inAlertTest s).trace).map Prod.fst =
        (evals (assertOnCurrentView env inConfirmTest s).trace).map Prod.fst ∧
      (failures (assertOnCurrentView env inAlertTest s).trace).length =
        (failures (assertOnCurrentView env inConfirmTest s).trace).length ∧
      ((assertOnCurrentView env inAlertTest s).outcome = .returned ↔
        (assertOnCurrentView env inConfirmTest s).outcome = .returned) := by
  have hrun := retryLoop_same_flags env
    (pureProbe (fun w => inAlertTest (env.CurrentView w)))
    (pureProbe (fun w => inConfirmTest (env.CurrentView w)))
    (fun w => ⟨_, _, _, rfl, rfl⟩) waitTimes "" "" s
  refine ⟨rfl, ?_, ?_, rfl, rfl, hrun.1, hrun.2.1, hrun.2.2.1, hrun.2.2.2.2⟩ <;>
    simp [inAlertTest, inConfirmTest]

/-- C18: on every focused view the probe of `NotInPopup` passes exactly when
none of the probes of `InPrompt`, `InConfirm`, `InCommitMessagePanel` and
`InMenu` passes, and at most one of these four passes. -/
theorem NotInPopup_iff_no_popup (currentView : GocuiView) :
    ((notInPopupTest currentView).1 = true ↔
        (inPromptTest currentView).1 = false ∧ (inConfirmTest currentView).1 = false ∧
          (inCommitMessagePanelTest currentView).1 = false ∧
          (inMenuTest currentView).1 = false) ∧
      ([(inPromptTest currentView).1, (inConfirmTest currentView).1,
          (inCommitMessagePanelTest currentView).1, (inMenuTest currentView).1].count true
        ≤ 1) := by
  obtain ⟨name, title, editable, buffer, lines⟩ := currentView
  by_cases h1 : name = "confirmation"
  · subst h1
    cases editable <;>
      simp [notInPopupTest, inPromptTest, inConfirmTest, inCommitMessagePanelTest, inMenuTest]
  · by_cases h2 : name = "commitMessage"
    · subst h2
      simp [notInPopupTest, inPromptTest, inConfirmTest, inCommitMessagePanelTest, inMenuTest]
    · by_cases h3 : name = "menu"
      · subst h3
        simp [notInPopupTest, inPromptTest, inConfirmTest, inCommitMessagePanelTest, inMenuTest]
      · simp [notInPopupTest, inPromptTest, inConfirmTest, inCommitMessagePanelTest, inMenuTest,
          h1, h2, h3]

/-- C15: when the first pass=true result of the probe is on its `k`-th
evaluation, then `k` is between 1 and 16, the call makes exactly `k`
evaluations, it sleeps the first `k` schedule entries in order, one before
each evaluation, in total their sum, and it returns without invoking the
failure sink. The failure sink is invoked, once, exactly when all 16
evaluations return pass=false. -/
theorem assertWithRetries_firstPass {σ : Type} (env : Env σ) (test : σ → ProbeOut) (s : σ) :
    (∀ k, FirstPassAt test (evalWorlds env waitTimes s) k →
        1 ≤ k ∧ k ≤ 16 ∧
          (evals (assertWithRetries env test s).trace).length = k ∧
          (evals (assertWithRetries env test s).trace).map Prod.fst =
            List.replicate (k - 1) false ++ [true] ∧
          sleeps (assertWithRetries env test s).trace = waitTimes.take k ∧
          slept (assertWithRetries env test s).trace = (waitTimes.take k).sum ∧
          failures (assertWithRetries env test s).trace = [] ∧
          (assertWithRetries env test s).outcome = .returned) ∧
      (evalWorlds env waitTimes s).length = 16 ∧
      (failures (assertWithRetries env test s).trace ≠ [] ↔
        ∀ w ∈ evalWorlds env waitTimes s, ∃ m, (test w).result = some (false, m)) ∧
      (failures (assertWithRetries env test s).trace).length ≤ 1 := by
  have hlen : (evalWorlds env waitTimes s).length = 16 := by
    rw [evalWorlds_length]
    rfl
  refine ⟨?_, hlen, (retryLoop_failures_iff env test waitTimes "" s).1,
    (retryLoop_failures_iff env test waitTimes "" s).2⟩
  rintro k ⟨pre, w, post, message, hws, hk, hpre, hw⟩
  obtain ⟨i1, i2, i3, i4, _⟩ :=
    retryLoop_firstPass env test pre w post message waitTimes "" s hws hpre hw
  have hle : k ≤ 16 := by
    have := congrArg List.length hws
    rw [hlen] at this
    simp at this
    omega
  unfold assertWithRetries slept
  rw [i1, i2, i3, i4, hk]
  refine ⟨by omega, hle, by simp [hk], ?_, rfl, rfl, rfl, rfl⟩
  rw [← hk]
  simp only [List.map_append, List.map_map, List.map_cons, List.map_nil, Nat.add_sub_cancel]
  congr 1
  exact List.eq_replicate_iff.mpr ⟨by simp, by simp⟩

/-- Witness of C15: on a clock, a probe that passes from 10 ms on is first
true at its 7th evaluation, after sleeps of 0, 1, 1, 1, 1, 1 and 5 ms. -/
theorem assertWithRetries_firstPass_witness :
    FirstPassAt (readyFromTest 10) (evalWorlds (clockEnv 0) waitTimes 0) 7 ∧
    (evals (assertWithRetries (clockEnv 0) (readyFromTest 10) 0).trace).length = 7 ∧
    sleeps (assertWithRetries (clockEnv 0) (readyFromTest 10) 0).trace = waitTimes.take 7 ∧
    failures (assertWithRetries (clockEnv 0) (readyFromTest 10) 0).trace = [] :=
  have hfirst : FirstPassAt (readyFromTest 10) (evalWorlds (clockEnv 0) waitTimes 0) 7 :=
    ⟨[0, 1, 2, 3, 4, 5], 10, [20, 40, 80, 180, 380, 880, 1880, 3880, 7880], "waiting at 10",
      by decide, rfl,
      by
        intro v hv
        simp only [List.mem_cons, List.mem_singleton, List.not_mem_nil, or_false] at hv
        rcases hv with rfl | rfl | rfl | rfl | rfl | rfl <;> exact ⟨_, rfl⟩,
      by decide⟩
  ⟨hfirst,
    ((assertWithRetries_firstPass (clockEnv 0) (readyFromTest 10) 0).1 7 hfirst).2.2.1,
    ((assertWithRetries_firstPass (clockEnv 0) (readyFromTest 10) 0).1 7 hfirst).2.2.2.2.1,
    ((assertWithRetries_firstPass (clockEnv 0) (readyFromTest 10) 0).1 7 hfirst).2.2.2.2.2.2.1⟩

/-- C13: when the name of the current view and the lines of the view of that
name do not change during the call, `CurrentViewLines(m1..mn)`, which is
`ViewLines` on that name, returns, and leaves the failure sink alone, exactly
when the view has `n` lines and each matcher passes on the line at its
position; otherwise it ends in the failure sink. -/
theorem CurrentViewLines_static {σ : Type} (env : Env σ) (name : String)
    (lines : List String) (ms : List matcher) (s : σ)
    (hname : ∀ w, (env.CurrentView w).Name = name)
    (hlines : ∀ w, (env.View w name).BufferLines = lines) :
    CurrentViewLines env ms s = ViewLines env name ms s ∧
      ((CurrentViewLines env ms s).outcome = .returned ↔
        lines.length = ms.length ∧
          ∀ i m line, ms.get? i = some m → lines.get? i = some line →
            (m.test line).1 = true) ∧
      (failures (CurrentViewLines env ms s).trace = [] ↔
        lines.length = ms.length ∧
          ∀ i m line, ms.get? i = some m → lines.get? i = some line →
            (m.test line).1 = true) ∧
      ((CurrentViewLines env ms s).outcome = .returned ∨
        ∃ message, (CurrentViewLines env ms s).outcome = .failed message) := by
  have hrun : CurrentViewLines env ms s = ViewLines env name ms s := by
    unfold CurrentViewLines
    rw [hname s]
  obtain ⟨_, h2, h3, h4⟩ := ViewLines_static env name lines hlines ms s
  have hiff : (lines.length = ms.length ∧ linesMatch ms lines = true) ↔
      (lines.length = ms.length ∧
        ∀ i m line, ms.get? i = some m → lines.get? i = some line →
          (m.test line).1 = true) := by
    rw [linesMatch_iff]
    constructor
    · rintro ⟨h, _, hall⟩
      exact ⟨h, hall⟩
    · rintro ⟨h, hall⟩
      exact ⟨h, by omega, hall⟩
  rw [hrun]
  exact ⟨rfl, h2.trans hiff, h3.trans hiff, h4⟩

/-- Witness of C13: on a clock whose view has the lines `a-line` and `b-line`
throughout, `CurrentViewLines(Contains("a"), Contains("b"))` returns. -/
theorem CurrentViewLines_static_witness :
    (∀ w, ((clockEnv 0).CurrentView w).Name = "files") ∧
    (∀ w, ((clockEnv 0).View w "files").BufferLines = ["a-line", "b-line"]) ∧
    (CurrentViewLines (clockEnv 0) [Contains "a", Contains "b"] 0).outcome = .returned ∧
    ((CurrentViewLines (clockEnv 0) [Contains "a", Contains "b"] 0).outcome = .returned ↔
      ["a-line", "b-line"].length = [Contains "a", Contains "b"].length ∧
        ∀ i m line, [Contains "a", Contains "b"].get? i = some m →
          ["a-line", "b-line"].get? i = some line → (m.test line).1 = true) :=
  ⟨fun _ => rfl, fun _ => rfl, by decide,
    (CurrentViewLines_static (clockEnv 0) "files" ["a-line", "b-line"]
      [Contains "a", Contains "b"] 0 (fun _ => rfl) (fun _ => rfl)).2.1⟩

/-- C14: when the lines of the view do not change during the call,
`ViewTopLines(view, m1..mn)` returns, and leaves the failure sink alone,
exactly when the view has at least `n` lines and each matcher passes on the
line at its position; so against two views that agree on their first `n`
lines it returns for both or ends in the failure sink for both. -/
theorem ViewTopLines_checks_top_lines {σ τ : Type} (env : Env σ) (viewName : String)
    (lines : List String) (ms : List matcher) (s : σ)
    (hlines : ∀ w, (env.View w viewName).BufferLines = lines)
    (env2 : Env τ) (viewName2 : String) (lines2 : List String) (s2 : τ)
    (hlines2 : ∀ w, (env2.View w viewName2).BufferLines = lines2)
    (hagree : lines.take ms.length = lines2.take ms.length) :
    ((ViewTopLines env viewName ms s).outcome = .returned ↔
        ms.length ≤ lines.length ∧
          ∀ i m line, ms.get? i = some m → lines.get? i = some line →
            (m.test line).1 = true) ∧
      (failures (ViewTopLines env viewName ms s).trace = [] ↔
        ms.length ≤ lines.length ∧
          ∀ i m line, ms.get? i = some m → lines.get? i = some line →
            (m.test line).1 = true) ∧
      ((ViewTopLines env viewName ms s).outcome = .returned ∨
        ∃ message, (ViewTopLines env viewName ms s).outcome = .failed message) ∧
      ((ViewTopLines env viewName ms s).outcome = .returned ↔
        (ViewTopLines env2 viewName2 ms s2).outcome = .returned) ∧
      (failures (ViewTopLines env viewName ms s).trace = [] ↔
        failures (ViewTopLines env2 viewName2 ms s2).trace = []) := by
  obtain ⟨_, h2, h3, h4⟩ := ViewTopLines_static env viewName lines hlines ms s
  obtain ⟨_, k2, k3, _⟩ := ViewTopLines_static env2 viewName2 lines2 hlines2 ms s2
  have hsame : linesMatch ms lines = linesMatch ms lines2 := by
    rw [← linesMatch_take ms lines, ← linesMatch_take ms lines2, hagree]
  refine ⟨h2.trans (linesMatch_iff ms lines), h3.trans (linesMatch_iff ms lines), h4, ?_, ?_⟩
  · rw [h2, k2, hsame]
  · rw [h3, k3, hsame]

/-- Witness of C14: `ViewTopLines(Contains("a"))` returns against a view with
the lines `a-line`, `b-line`, as it does against one with the line `a-line`
followed by other lines. -/
theorem ViewTopLines_checks_top_lines_witness :
    (∀ w, ((clockEnv 0).View w "files").BufferLines = ["a-line", "b-line"]) ∧
    (∀ w, ((frozenEnv ["a-line", "c", "d"]).View w "main").BufferLines =
      ["a-line", "c", "d"]) ∧
    ["a-line", "b-line"].take [Contains "a"].length =
      ["a-line", "c", "d"].take [Contains "a"].length ∧
    (ViewTopLines (clockEnv 0) "files" [Contains "a"] 0).outcome = .returned ∧
    ((ViewTopLines (clockEnv 0) "files" [Contains "a"] 0).outcome = .returned ↔
      (ViewTopLines (frozenEnv ["a-line", "c", "d"]) "main" [Contains "a"] ()).outcome
        = .returned) :=
  ⟨fun _ => rfl, fun _ => rfl, rfl, by decide,
    (ViewTopLines_checks_top_lines (clockEnv 0) "files" ["a-line", "b-line"] [Contains "a"] 0
      (fun _ => rfl) (frozenEnv ["a-line", "c", "d"]) "main" ["a-line", "c", "d"] ()
      (fun _ => rfl) rfl).2.2.2.1⟩

/-- C19: with the failure sink ending the scenario, and with view lines and
commits that do not change during the call, every indexed read of
`ViewLines`, `ViewTopLines` and `HeadCommitMessage` is within bounds and none
of the calls ends in an out-of-range panic: each returns or ends in the
failure sink, for all matchers, lines and commits, empty lists included. -/
theorem indexed_reads_in_bounds {σ : Type} (env : Env σ) (viewName : String)
    (lines commits : List String) (ms : List matcher) (m : matcher) (s : σ)
    (hlines : ∀ w, (env.View w viewName).BufferLines = lines)
    (hcommits : ∀ w, env.Commits w = commits) :
    ((∀ a ∈ accesses (ViewLines env viewName ms s).trace, a.inBounds = true) ∧
        (ViewLines env viewName ms s).outcome ≠ .panicked) ∧
      ((∀ a ∈ accesses (ViewTopLines env viewName ms s).trace, a.inBounds = true) ∧
        (ViewTopLines env viewName ms s).outcome ≠ .panicked) ∧
      ((∀ a ∈ accesses (HeadCommitMessage env m s).trace, a.inBounds = true) ∧
        (HeadCommitMessage env m s).outcome ≠ .panicked) := by
  have hne : ∀ o : Outcome, (o = .returned ∨ ∃ message, o = .failed message) →
      o ≠ .panicked := by
    rintro o (h | ⟨message, h⟩) <;> simp [h]
  obtain ⟨a1, _, _, a4⟩ := ViewLines_static env viewName lines hlines ms s
  obtain ⟨b1, _, _, b4⟩ := ViewTopLines_static env viewName lines hlines ms s
  obtain ⟨c1, c2⟩ := HeadCommitMessage_static env commits hcommits m s
  exact ⟨⟨a1, hne _ a4⟩, ⟨b1, hne _ b4⟩, ⟨c1, hne _ c2⟩⟩

/-- Witness of C19: the reads of `ViewLines` on a view of two lines are those
of line 0 and line 1 of a slice of length 2, and `HeadCommitMessage` on no
commits makes no read. -/
theorem indexed_reads_in_bounds_witness :
    (∀ w, ((clockEnv 0).View w "files").BufferLines = ["a-line", "b-line"]) ∧
    (∀ w, (clockEnv 0).Commits w = []) ∧
    accesses (ViewLines (clockEnv 0) "files" [Contains "a", Contains "b"] 0).trace =
      [.index 2 0, .apply "contains 'a'" "a-line", .index 2 1, .apply "contains 'b'" "b-line"] ∧
    accesses (HeadCommitMessage (clockEnv 0) (Equals "x") 0).trace = [] ∧
    (∀ a ∈ accesses (ViewLines (clockEnv 0) "files" [Contains "a", Contains "b"] 0).trace,
      a.inBounds = true) ∧
    (HeadCommitMessage (clockEnv 0) (Equals "x") 0).outcome ≠ .panicked :=
  ⟨fun _ => rfl, fun _ => rfl, by decide, by decide,
    (indexed_reads_in_bounds (clockEnv 0) "files" ["a-line", "b-line"] []
      [Contains "a", Contains "b"] (Equals "x") 0 (fun _ => rfl) (fun _ => rfl)).1.1,
    (indexed_reads_in_bounds (clockEnv 0) "files" ["a-line", "b-line"] []
      [Contains "a", Contains "b"] (Equals "x") 0 (fun _ => rfl) (fun _ => rfl)).2.2.2⟩

/-- C16: for every list of matchers and every evolution of the view, one call
of `ViewLines` or of `ViewTopLines` sleeps at most `N + 1` times the sum of
the retry schedule, `N` being the number of matchers; and for every `N` of at
least 1 the bound is attained: on a view that is empty at first and whose
lines become ready one schedule apart, the call with `N` matchers
`Equals("ready")` sleeps exactly `N + 1` times the sum. -/
theorem ViewLines_sleep_budget {σ : Type} (env : Env σ) (viewName : String)
    (ms : List matcher) (s : σ) (N : Nat) (hN : 1 ≤ N) :
    slept (ViewLines env viewName ms s).trace ≤ (ms.length + 1) * waitTimes.sum ∧
      slept (ViewTopLines env viewName ms s).trace ≤ (ms.length + 1) * waitTimes.sum ∧
      (List.replicate N (Equals "ready")).length = N ∧
      slept (ViewLines (slowEnv N) "files" (List.replicate N (Equals "ready")) 0).trace =
        (N + 1) * waitTimes.sum ∧
      slept (ViewTopLines (slowEnv N) "files" (List.replicate N (Equals "ready")) 0).trace =
        (N + 1) * waitTimes.sum := by
  refine ⟨checkedLinesLoop_slept_le env viewName ms _ s,
    checkedLinesLoop_slept_le env viewName ms _ s, List.length_replicate _ _, ?_, ?_⟩
  · unfold ViewLines
    rw [List.length_replicate]
    exact checkedLinesLoop_slowEnv N _
      ("unexpected number of lines in view. Expected " ++ toString N ++ ", got " ++ toString N)
      (fun t ht => ⟨_, by
        simp only [viewLinesCountTest, pureProbe, slowEnv_length, if_pos ht]
        rw [decide_eq_false (by omega)]⟩)
      (by
        simp only [viewLinesCountTest, pureProbe, slowEnv_length]
        simp)
  · unfold ViewTopLines
    rw [List.length_replicate]
    exact checkedLinesLoop_slowEnv N _
      ("unexpected number of lines in view. Expected at least " ++ toString N ++ ", got "
        ++ toString N)
      (fun t ht => ⟨_, by
        simp only [viewTopLinesCountTest, pureProbe, slowEnv_length, if_pos ht]
        rw [decide_eq_false (by omega)]⟩)
      (by
        simp only [viewTopLinesCountTest, pureProbe, slowEnv_length]
        simp)

/-- Witness of C16: with two matchers the slowly filling view makes
`ViewLines` sleep three times the sum of the schedule, 23640 ms. -/
theorem ViewLines_sleep_budget_witness :
    1 ≤ 2 ∧
    slept (ViewLines (slowEnv 2) "files" (List.replicate 2 (Equals "ready")) 0).trace =
      (2 + 1) * waitTimes.sum ∧
    (2 + 1) * waitTimes.sum = 23640 ∧
    slept (ViewLines (clockEnv 0) "files" [Contains "a", Contains "b"] 0).trace ≤
      ([Contains "a", Contains "b"].length + 1) * waitTimes.sum :=
  ⟨by decide,
    (ViewLines_sleep_budget (clockEnv 0) "files" [Contains "a", Contains "b"] 0 2
      (by decide)).2.2.2.1,
    by decide,
    (ViewLines_sleep_budget (clockEnv 0) "files" [Contains "a", Contains "b"] 0 2
      (by decide)).1⟩

end Lazygit
